import Mathlib

/-!
Verification development for the JUnit→Playwright extraction/compilation
pipeline (extract-actions.mjs, validate-syntax.mjs, playwright-bridge.mjs,
index.mjs).  The JavaScript sources are shallowly embedded: regex-based
scanning is rendered as deterministic character-level scanners (each
regex of the source is simple enough that greedy/lazy matching is
deterministic, see the per-definition comments), and the stateful plan
compiler is rendered as explicit state passing.
-/

namespace LLMComparison

/-! ## Character-scanner primitives

The source regexes use `\s`, `\w`, literal tokens, `[^X]+` runs and
little else, so matching is modelled with the primitives below over
`List Char`. -/

/-- JavaScript `\s` restricted to the ASCII whitespace characters
(the inputs of interest are ASCII). -/
def jsWs (c : Char) : Bool :=
  c = ' ' || c = '\t' || c = '\n' || c = '\r' || c = '\x0b' || c = '\x0c'

/-- JavaScript `\w`: `[A-Za-z0-9_]`. -/
def jsWord (c : Char) : Bool :=
  c.isAlphanum || c = '_'

/-- Consume an exact literal; `none` on mismatch. -/
def eatLit : List Char → List Char → Option (List Char)
  | [], s => some s
  | _ :: _, [] => none
  | l :: ls, c :: cs => if c = l then eatLit ls cs else none

/-- Consume `\s*` (greedy). -/
def eatWs (s : List Char) : List Char := s.dropWhile jsWs

/-- Consume `\s+` (greedy, at least one). -/
def eatWs1 : List Char → Option (List Char)
  | [] => none
  | c :: cs => if jsWs c then some (eatWs cs) else none

/-- Consume one exact character. -/
def eatChar (c : Char) : List Char → Option (List Char)
  | [] => none
  | d :: ds => if d = c then some ds else none

/-- JavaScript `String.prototype.trim` on a character list. -/
def trimChars (s : List Char) : List Char :=
  ((s.dropWhile jsWs).reverse.dropWhile jsWs).reverse

/-- Generic `matchAll` driver: at each position try the matcher; on
success record the start offset and result and resume after the match
(JS advances `lastIndex` past the match; if a matcher consumed nothing
we advance one character, as JS does for empty matches). -/
def scanAllAux (tryM : List Char → Option (α × List Char)) :
    List Char → Nat → Nat → List (Nat × α)
  | _, _, 0 => []
  | [], _, _ => []
  | c :: rest, pos, fuel + 1 =>
    match tryM (c :: rest) with
    | some (a, r) =>
        if r.length < rest.length + 1 then
          (pos, a) :: scanAllAux tryM r (pos + (rest.length + 1 - r.length)) fuel
        else
          (pos, a) :: scanAllAux tryM rest (pos + 1) fuel
    | none => scanAllAux tryM rest (pos + 1) fuel

/-- All matches of a matcher over a text, with start offsets. -/
def scanAll (tryM : List Char → Option (α × List Char)) (s : List Char) :
    List (Nat × α) :=
  scanAllAux tryM s 0 (s.length + 1)

/-! ## Locator Normalizer (`byToSelector`, extract-actions.mjs)

Every `By.*` regex of the source has the single shape
`By\.K\s*\(\s*"([^"]+)"\s*\)`, embedded once, parameterized by the
method name `K`.  `[^"]+` followed by `"` is greedy without
backtracking since the run cannot contain the closing quote. -/

/-- Match `By\.K\s*\(\s*"([^"]+)"\s*\)` at the head of `s`; returns the
capture and the rest after the match. -/
def byPatternAt (method : List Char) (s : List Char) : Option (List Char × List Char) :=
  match eatLit ("By.".data ++ method) s with
  | none => none
  | some s =>
    match eatChar '(' (eatWs s) with
    | none => none
    | some s =>
      match eatChar '"' (eatWs s) with
      | none => none
      | some s =>
        let cap := s.takeWhile (· ≠ '"')
        if cap.isEmpty then none
        else
          match eatChar '"' (s.dropWhile (· ≠ '"')) with
          | none => none
          | some s =>
            match eatChar ')' (eatWs s) with
            | none => none
            | some s => some (cap, s)

/-- JavaScript non-global `byExpr.match(re)`: first (leftmost) match;
returns the capture group. -/
def findByMatch (method : List Char) : List Char → Option (List Char)
  | [] => none
  | c :: rest =>
    match byPatternAt method (c :: rest) with
    | some (cap, _) => some cap
    | none => findByMatch method rest

/-- Embedding of `byToSelector` (extract-actions.mjs): map a `By.*` locator
expression to one canonical selector string; the rules are tried in
source order and unrecognized input is returned unchanged. -/
def byToSelector (byExpr : String) : String :=
  match findByMatch "id".data byExpr.data with
  | some cap => "#" ++ String.mk cap
  | none =>
  match findByMatch "name".data byExpr.data with
  | some cap => "[name=\"" ++ String.mk cap ++ "\"]"
  | none =>
  match findByMatch "cssSelector".data byExpr.data with
  | some cap => String.mk cap
  | none =>
  match findByMatch "xpath".data byExpr.data with
  | some cap => "xpath=" ++ String.mk cap
  | none =>
  match findByMatch "className".data byExpr.data with
  | some cap => "." ++ String.mk cap
  | none =>
  match findByMatch "tagName".data byExpr.data with
  | some cap => String.mk cap
  | none =>
  match findByMatch "linkText".data byExpr.data with
  | some cap => "text=\"" ++ String.mk cap ++ "\""
  | none => byExpr

/-! ## Description generator (`selectorToDescription`, playwright-bridge.mjs) -/

/-- First match of `\[name="([^"]+)"\]` in `s` (capture only),
mirroring `selector.match(/\[name="([^"]+)"\]/)?.[1]`. -/
def findNameCapture : List Char → Option (List Char)
  | [] => none
  | c :: rest =>
    match eatLit "[name=\"".data (c :: rest) with
    | some s =>
      let cap := s.takeWhile (· ≠ '"')
      if cap.isEmpty then findNameCapture rest
      else
        match eatChar '"' (s.dropWhile (· ≠ '"')) with
        | some s' =>
          match eatChar ']' s' with
          | some _ => some cap
          | none => findNameCapture rest
        | none => findNameCapture rest
    | none => findNameCapture rest

/-- Embedding of `selectorToDescription` (playwright-bridge.mjs): canonical selector →
human-readable phrase for step notes.  JS `startsWith` / `slice` are
rendered as character-list prefix tests and drops. -/
def selectorToDescription (selector : String) : String :=
  if "#".data.isPrefixOf selector.data then
    "element with id=\"" ++ String.mk (selector.data.drop 1) ++ "\""
  else if ".".data.isPrefixOf selector.data then
    "element with class=\"" ++ String.mk (selector.data.drop 1) ++ "\""
  else if "[name=".data.isPrefixOf selector.data then
    let name := match findNameCapture selector.data with
      | some cap => String.mk cap
      | none => selector
    "input with name=\"" ++ name ++ "\""
  else if "text=".data.isPrefixOf selector.data then
    "element with text \"" ++ String.mk (selector.data.drop 5) ++ "\""
  else if "xpath=".data.isPrefixOf selector.data then
    "element at xpath " ++ String.mk (selector.data.drop 6)
  else selector

/-! ## Semantic actions (the IR of extract-actions.mjs)

A JS action object is a record with a `type` string plus the
type-relevant fields; absent fields are embedded as `""`. -/

structure Action where
  type : String
  url : String := ""
  selector : String := ""
  value : String := ""
  expected : String := ""
  expression : String := ""
  deriving DecidableEq, Repr

/-- Anchored `^"([^"]+)"$` (used for navigate URLs). -/
def strLitPlus : List Char → Option (List Char)
  | '"' :: rest =>
    let mid := rest.takeWhile (· ≠ '"')
    if mid.isEmpty then none
    else if rest.dropWhile (· ≠ '"') = ['"'] then some mid else none
  | _ => none

/-- Anchored `^"([^"]*)"$` (used for fill values; empty literal allowed). -/
def strLitStar : List Char → Option (List Char)
  | '"' :: rest =>
    if rest.dropWhile (· ≠ '"') = ['"'] then some (rest.takeWhile (· ≠ '"')) else none
  | _ => none

/-- Subpattern `(By\.[^)]+\))`: returns the capture (including the
closing parenthesis, as in the source regexes) and the rest. -/
def byGroup (s : List Char) : Option (List Char × List Char) :=
  match eatLit "By.".data s with
  | none => none
  | some t =>
    let run := t.takeWhile (· ≠ ')')
    if run.isEmpty then none
    else
      match eatChar ')' (t.dropWhile (· ≠ ')')) with
      | some u => some ("By.".data ++ run ++ [')'], u)
      | none => none

/-- Matcher for `driver\.get\s*\(\s*([^)]+)\s*\)` — one navigate match. -/
def tryNavigate (s : List Char) : Option (Action × List Char) :=
  match eatLit "driver.get".data s with
  | none => none
  | some s =>
    match eatChar '(' (eatWs s) with
    | none => none
    | some s =>
      let s := eatWs s
      let cap := s.takeWhile (· ≠ ')')
      if cap.isEmpty then none
      else
        match eatChar ')' (s.dropWhile (· ≠ ')')) with
        | none => none
        | some rest =>
          let urlExpr := trimChars cap
          let url := match strLitPlus urlExpr with
            | some mid => String.mk mid
            | none => "\x7b\x7b " ++ String.mk urlExpr ++ " \x7d\x7d"
          some ({ type := "navigate", url := url }, rest)

/-- Common prefix `findElement\s*\(\s*(By\.[^)]+\))\s*\)` of the four
locator-find patterns; returns the `By` capture and the rest. -/
def findElementBy (s : List Char) : Option (List Char × List Char) :=
  match eatLit "findElement".data s with
  | none => none
  | some s =>
    match eatChar '(' (eatWs s) with
    | none => none
    | some s =>
      match byGroup (eatWs s) with
      | none => none
      | some (byCap, s) =>
        match eatChar ')' (eatWs s) with
        | none => none
        | some s => some (byCap, s)

/-- Matcher for `findElement...\.sendKeys\s*\(\s*([^)]+)\s*\)` — one fill match. -/
def tryFill (s : List Char) : Option (Action × List Char) :=
  match findElementBy s with
  | none => none
  | some (byCap, s) =>
    match eatLit ".sendKeys".data s with
    | none => none
    | some s =>
      match eatChar '(' (eatWs s) with
      | none => none
      | some s =>
        let s := eatWs s
        let cap := s.takeWhile (· ≠ ')')
        if cap.isEmpty then none
        else
          match eatChar ')' (s.dropWhile (· ≠ ')')) with
          | none => none
          | some rest =>
            let valueExpr := trimChars cap
            let value := match strLitStar valueExpr with
              | some mid => String.mk mid
              | none => "\x7b\x7b " ++ String.mk valueExpr ++ " \x7d\x7d"
            some ({ type := "fill", selector := byToSelector (String.mk byCap),
                    value := value }, rest)

/-- Matcher `findElement...\.M\s*\(\s*\)` for the no-argument methods
`clear`, `click`, `getText`. -/
def tryFindCall (methodDot : List Char) (ty : String) (s : List Char) :
    Option (Action × List Char) :=
  match findElementBy s with
  | none => none
  | some (byCap, s) =>
    match eatLit methodDot s with
    | none => none
    | some s =>
      match eatChar '(' (eatWs s) with
      | none => none
      | some s =>
        match eatChar ')' (eatWs s) with
        | none => none
        | some rest =>
          some ({ type := ty, selector := byToSelector (String.mk byCap) }, rest)

def tryClear (s : List Char) : Option (Action × List Char) :=
  tryFindCall ".clear".data "clear" s

def tryClick (s : List Char) : Option (Action × List Char) :=
  tryFindCall ".click".data "click" s

def tryGetText (s : List Char) : Option (Action × List Char) :=
  tryFindCall ".getText".data "get_text" s

/-- Tail of the assert_text pattern:
`findElement\s*\(\s*(By\.[^)]+\))\s*\)\.getText`. -/
def assertEqTail (s : List Char) : Option (List Char × List Char) :=
  match findElementBy s with
  | none => none
  | some (byCap, s) =>
    match eatLit ".getText".data s with
    | none => none
    | some rest => some (byCap, rest)

/-- The lazy `.*?` before the tail: `.` does not match a line
terminator, so we advance at most to the end of the current line
looking for the earliest position where the tail matches. -/
def lazyFindTail : List Char → Option (List Char × List Char)
  | [] => none
  | c :: rest =>
    match assertEqTail (c :: rest) with
    | some r => some r
    | none => if c = '\n' ∨ c = '\r' then none else lazyFindTail rest

/-- Matcher for `assertEquals\s*\(\s*"([^"]+)"\s*,\s*.*?findElement\s*\(\s*(By\.[^)]+\))\s*\)\.getText`
— one assert_text match. -/
def tryAssertEquals (s : List Char) : Option (Action × List Char) :=
  match eatLit "assertEquals".data s with
  | none => none
  | some s =>
    match eatChar '(' (eatWs s) with
    | none => none
    | some s =>
      match eatChar '"' (eatWs s) with
      | none => none
      | some s =>
        let expCap := s.takeWhile (· ≠ '"')
        if expCap.isEmpty then none
        else
          match eatChar '"' (s.dropWhile (· ≠ '"')) with
          | none => none
          | some s =>
            match eatChar ',' (eatWs s) with
            | none => none
            | some s =>
              match lazyFindTail (eatWs s) with
              | none => none
              | some (byCap, rest) =>
                some ({ type := "assert_text",
                        selector := byToSelector (String.mk byCap),
                        expected := String.mk expCap }, rest)

/-- Index of the last `)` in a list, if any. -/
def lastParenIdx : List Char → Option Nat
  | [] => none
  | c :: rest =>
    match lastParenIdx rest with
    | some k => some (k + 1)
    | none => if c = ')' then some 0 else none

/-- Matcher `NAME\s*\(([^;]+)\)` for `assertTrue` / `assertFalse`: the greedy
`[^;]+` backtracks to the last `)` before the first `;` (that index
must be at least 1 so the capture is non-empty). -/
def tryAssertCall (nameLit : List Char) (ty : String) (s : List Char) :
    Option (Action × List Char) :=
  match eatLit nameLit s with
  | none => none
  | some s =>
    match eatChar '(' (eatWs s) with
    | none => none
    | some s =>
      let run := s.takeWhile (· ≠ ';')
      let tail := s.dropWhile (· ≠ ';')
      match lastParenIdx run with
      | none => none
      | some k =>
        if 1 ≤ k then
          some ({ type := ty, expression := String.mk (trimChars (run.take k)) },
                run.drop (k + 1) ++ tail)
        else none

def tryAssertTrue (s : List Char) : Option (Action × List Char) :=
  tryAssertCall "assertTrue".data "assert_true" s

def tryAssertFalse (s : List Char) : Option (Action × List Char) :=
  tryAssertCall "assertFalse".data "assert_false" s

/-- Matcher for `ExpectedConditions\.\w+\s*\(\s*(By\.[^)]+\))\s*\)` — one wait match. -/
def tryWait (s : List Char) : Option (Action × List Char) :=
  match eatLit "ExpectedConditions.".data s with
  | none => none
  | some s =>
    let w := s.takeWhile jsWord
    if w.isEmpty then none
    else
      match eatChar '(' (eatWs (s.dropWhile jsWord)) with
      | none => none
      | some s =>
        match byGroup (eatWs s) with
        | none => none
        | some (byCap, s) =>
          match eatChar ')' (eatWs s) with
          | none => none
          | some rest =>
            some ({ type := "wait", selector := byToSelector (String.mk byCap) },
                  rest)

/-- Matcher for `findElements\s*\(\s*(By\.[^)]+\))\s*\)\.size\s*\(\s*\)` — one
count_elements match. -/
def tryCount (s : List Char) : Option (Action × List Char) :=
  match eatLit "findElements".data s with
  | none => none
  | some s =>
    match eatChar '(' (eatWs s) with
    | none => none
    | some s =>
      match byGroup (eatWs s) with
      | none => none
      | some (byCap, s) =>
        match eatChar ')' (eatWs s) with
        | none => none
        | some s =>
          match eatLit ".size".data s with
          | none => none
          | some s =>
            match eatChar '(' (eatWs s) with
            | none => none
            | some s =>
              match eatChar ')' (eatWs s) with
              | none => none
              | some rest =>
                some ({ type := "count_elements",
                        selector := byToSelector (String.mk byCap) }, rest)

/-! ## `extractActionsFromBody`: the ten `matchAll` loops, in source
order, each group collected completely before the next. -/

def navMatches (b : List Char) : List (Nat × Action) := scanAll tryNavigate b
def fillMatches (b : List Char) : List (Nat × Action) := scanAll tryFill b
def clearMatches (b : List Char) : List (Nat × Action) := scanAll tryClear b
def clickMatches (b : List Char) : List (Nat × Action) := scanAll tryClick b
def getTextMatches (b : List Char) : List (Nat × Action) := scanAll tryGetText b
def assertTextMatches (b : List Char) : List (Nat × Action) := scanAll tryAssertEquals b
/-- All `assertTrue` matches; the source pushes an action only when the
trimmed expression differs from the literal `true`. -/
def assertTrueMatches (b : List Char) : List (Nat × Action) :=
  (scanAll tryAssertTrue b).filter (fun pa => pa.2.expression ≠ "true")
def assertFalseMatches (b : List Char) : List (Nat × Action) := scanAll tryAssertFalse b
def waitMatches (b : List Char) : List (Nat × Action) := scanAll tryWait b
def countMatches (b : List Char) : List (Nat × Action) := scanAll tryCount b

def extractActionsFromBody (body : String) : List Action :=
  (navMatches body.data).map (·.2)
  ++ (fillMatches body.data).map (·.2)
  ++ (clearMatches body.data).map (·.2)
  ++ (clickMatches body.data).map (·.2)
  ++ (getTextMatches body.data).map (·.2)
  ++ (assertTextMatches body.data).map (·.2)
  ++ (assertTrueMatches body.data).map (·.2)
  ++ (assertFalseMatches body.data).map (·.2)
  ++ (waitMatches body.data).map (·.2)
  ++ (countMatches body.data).map (·.2)

/-! ## Method Segmenter (`splitTestMethods`, extract-actions.mjs)

Header regex: `@Test[\s\S]*?(?:public\s+)?void\s+(\w+)\s*\([^)]*\)\s*\{`.
The lazy `[\s\S]*?` takes the smallest expansion whose continuation
matches; the optional `(?:public\s+)?` first tries to be present. -/

/-- Matcher for `(?:public\s+)?void\s+(\w+)\s*\([^)]*\)\s*\{` at the head of `s`;
returns the method-name capture and the rest (just after `{`). -/
def voidHeader (s : List Char) : Option (List Char × List Char) :=
  match eatLit "void".data s with
  | none => none
  | some s =>
    match eatWs1 s with
    | none => none
    | some s =>
      let nm := s.takeWhile jsWord
      if nm.isEmpty then none
      else
        match eatChar '(' (eatWs (s.dropWhile jsWord)) with
        | none => none
        | some s =>
          match eatChar ')' (s.dropWhile (· ≠ ')')) with
          | none => none
          | some s =>
            match eatChar '{' (eatWs s) with
            | none => none
            | some rest => some (nm, rest)

/-- The optional `public\s+` prefix, greedy (tried first), then the
`void ...` part; on failure of the continuation the option backtracks. -/
def optPublicVoid (s : List Char) : Option (List Char × List Char) :=
  match (match eatLit "public".data s with
         | none => none
         | some t => eatWs1 t) with
  | some t =>
    match voidHeader t with
    | some r => some r
    | none => voidHeader s
  | none => voidHeader s

/-- Lazy `[\s\S]*?` before the header: earliest position where the
header matches (may span newlines, unbounded). -/
def lazyVoidHeader : List Char → Option (List Char × List Char)
  | [] => none
  | c :: rest =>
    match optPublicVoid (c :: rest) with
    | some r => some r
    | none => lazyVoidHeader rest

/-- One match of the whole `@Test...` header regex. -/
def tryTestHeader (s : List Char) : Option ((List Char × List Char) × List Char) :=
  match eatLit "@Test".data s with
  | none => none
  | some s =>
    match lazyVoidHeader s with
    | none => none
    | some (nm, rest) => some ((nm, rest), rest)

/-- The depth-counting loop of `splitTestMethods` (extract-actions.mjs
lines 74–80): starting just after the opening brace with depth 1, every
`{` increments and every `}` decrements — with no string- or
comment-awareness — until depth reaches 0 or the text ends; returns the
characters consumed (the scan includes the closing brace). -/
def braceScan : List Char → Nat → List Char
  | [], _ => []
  | c :: rest, depth =>
    let depth' := if c = '{' then depth + 1 else if c = '}' then depth - 1 else depth
    if c = '}' ∧ depth = 1 then [c]
    else c :: braceScan rest depth'

structure TestSeg where
  name : String
  body : String
  deriving DecidableEq, Repr

/-- Embedding of `splitTestMethods` (extract-actions.mjs): find each `@Test` method
header, then extract the body from its opening brace by plain depth
counting. -/
def splitTestMethods (code : String) : List TestSeg :=
  (scanAll tryTestHeader code.data).map fun pa =>
    { name := String.mk pa.2.1, body := String.mk ('{' :: braceScan pa.2.2 1) }

/-- Embedding of `extractActions` (extract-actions.mjs): segment, then extract
actions per body. -/
structure TestMethod where
  name : String
  actions : List Action
  deriving DecidableEq, Repr

structure ExtractResult where
  testMethods : List TestMethod
  deriving DecidableEq, Repr

def extractActions (javaCode : String) : ExtractResult :=
  { testMethods := (splitTestMethods javaCode).map fun seg =>
      { name := seg.name, actions := extractActionsFromBody seg.body } }

/-! ## Syntax Well-formedness Checker: the brace/string/comment scan
(`validateSyntax`, validate-syntax.mjs lines 16–48).

State: depth, inString, inLineComment, inBlockComment; `\` inside a
string skips the next character; `//`, `/*`, `*/` and `"` toggle the
modes; only braces seen outside all three modes change the depth. -/

def syntaxScanLoop : Nat → List Char → Int → Bool → Bool → Bool → Int
  | 0, _, d, _, _, _ => d
  | _ + 1, [], d, _, _, _ => d
  | fuel + 1, c :: rest, d, inStr, inLC, inBC =>
    if inLC then
      syntaxScanLoop fuel rest d inStr (c ≠ '\n') inBC
    else if inBC then
      if c = '*' then
        match rest with
        | '/' :: r2 => syntaxScanLoop fuel r2 d inStr inLC false
        | _ => syntaxScanLoop fuel rest d inStr inLC true
      else syntaxScanLoop fuel rest d inStr inLC true
    else if inStr then
      if c = '\\' then
        match rest with
        | [] => d
        | _ :: r2 => syntaxScanLoop fuel r2 d true inLC inBC
      else if c = '"' then syntaxScanLoop fuel rest d false inLC inBC
      else syntaxScanLoop fuel rest d true inLC inBC
    else
      if c = '/' then
        match rest with
        | '/' :: _ => syntaxScanLoop fuel rest d inStr true inBC
        | '*' :: _ => syntaxScanLoop fuel rest d inStr inLC true
        | _ => syntaxScanLoop fuel rest d inStr inLC inBC
      else if c = '"' then syntaxScanLoop fuel rest d true inLC inBC
      else if c = '\x7b' then syntaxScanLoop fuel rest (d + 1) inStr inLC inBC
      else if c = '\x7d' then syntaxScanLoop fuel rest (d - 1) inStr inLC inBC
      else syntaxScanLoop fuel rest d inStr inLC inBC

/-- Final depth of the checker's brace/string/comment scan; the source
reports an unbalanced-braces error iff this is non-zero. -/
def syntaxScanDepth (code : String) : Int :=
  syntaxScanLoop code.data.length code.data 0 false false false

/-! ## Plan Compiler (`actionToSteps` and the `test_methods` mapping,
playwright-bridge.mjs)

A step's `args` / `args_template` object is embedded as an inductive
mirroring the JSON shapes the source constructs; `seq` is a rational
because the auto-inserted bootstrap steps briefly carry `0.1` / `0.2`
before renumbering. -/

/-- One `{ element, ref, value }` entry of `browser_fill_form`'s
`fields` array. -/
structure FieldEntry where
  element : String
  ref : String
  value : String
  deriving DecidableEq, Repr

inductive StepArgs where
  /-- no `args` / `args_template` key (the unknown-action branch) -/
  | noArgs : StepArgs
  /-- JS `args: \x7b url \x7d` -/
  | navArgs (url : String) : StepArgs
  /-- JS `args: \x7b\x7d` (snapshot steps) -/
  | snapArgs : StepArgs
  /-- JS `args_template: \x7b fields: [...] \x7d` (fill / clear) -/
  | fillTemplate (fields : List FieldEntry) : StepArgs
  /-- JS `args_template: \x7b element, ref \x7d` (click) -/
  | clickTemplate (element ref : String) : StepArgs
  /-- JS `args: \x7b time \x7d` (wait) -/
  | timeArgs (time : Nat) : StepArgs
  /-- JS `args: \x7b text \x7d` (assert_text) -/
  | textArgs (text : String) : StepArgs
  /-- JS `args: \x7b function \x7d` (assert_true / assert_false / count_elements) -/
  | evalArgs (fn : String) : StepArgs
  deriving DecidableEq, Repr

structure Step where
  seq : ℚ
  mcp_tool : String
  args : StepArgs
  note : String
  selector_hint : Option String := none
  original_action : Option Action := none
  locator_status : Option String := none
  snapshot_marker : Bool := false
  skipped : Bool := false
  deriving DecidableEq, Repr

/-- The ref-resolution placeholder written into `args_template`. -/
def refPlaceholder : String := "\x7b\x7b resolve ref from latest snapshot \x7d\x7d"

/-- JS `Set.add` on the snapshot set. -/
def setAdd (l : List String) (u : String) : List String :=
  if u ∈ l then l else l ++ [u]

/-- JS `Set.delete` on the snapshot set. -/
def setDel (l : List String) (u : String) : List String :=
  l.filter (· ≠ u)

/-- The result record of `actionToSteps`: the emitted steps, the next
sequence number, the updated snapshot set and the current URL. -/
structure StepsOut where
  steps : List Step
  nextSeq : ℚ
  snapshotted : List String
  currentUrl : String
  deriving DecidableEq, Repr

/-- The auto-inserted snapshot step used before fill/click/clear/get_text
when the current URL has no valid snapshot. -/
def autoSnapStep (seq : ℚ) (note : String) : Step :=
  { seq := seq, mcp_tool := "browser_snapshot", args := .snapArgs,
    note := note, snapshot_marker := true }

/-- The primary step emitted for a `fill` action. -/
def fillStep (action : Action) (seq : ℚ) : Step :=
  { seq := seq, mcp_tool := "browser_fill_form",
    args := .fillTemplate [⟨selectorToDescription action.selector,
                            refPlaceholder, action.value⟩],
    selector_hint := some action.selector,
    original_action := some action,
    note := "Fill \"" ++ action.selector ++ "\" with \"" ++ action.value ++ "\"",
    locator_status := some "pending" }

/-- The primary step emitted for a `click` action. -/
def clickStep (action : Action) (seq : ℚ) : Step :=
  { seq := seq, mcp_tool := "browser_click",
    args := .clickTemplate (selectorToDescription action.selector) refPlaceholder,
    selector_hint := some action.selector,
    original_action := some action,
    note := "Click \"" ++ action.selector ++ "\"",
    locator_status := some "pending" }

/-- The primary step emitted for a `clear` action (a `browser_fill_form`
with empty value). -/
def clearStep (action : Action) (seq : ℚ) : Step :=
  { seq := seq, mcp_tool := "browser_fill_form",
    args := .fillTemplate [⟨selectorToDescription action.selector,
                            refPlaceholder, ""⟩],
    selector_hint := some action.selector,
    original_action := some action,
    note := "Clear \"" ++ action.selector ++ "\"",
    locator_status := some "pending" }

/-- The primary step emitted for a `get_text` action (a snapshot read). -/
def getTextStep (action : Action) (seq : ℚ) : Step :=
  { seq := seq, mcp_tool := "browser_snapshot", args := .snapArgs,
    note := "Read text from \"" ++ action.selector ++ "\" — verify in snapshot output",
    selector_hint := some action.selector,
    original_action := some action }

/-- Embedding of `actionToSteps` (playwright-bridge.mjs lines 78–300): lower one
semantic action to Playwright MCP steps, threading the sequence number,
the per-URL snapshot-freshness set and the current URL.  The source's
conditional `push` of a snapshot step is rendered as an if/else on the
whole result record. -/
def actionToSteps (baseUrl : String) (action : Action) (seq : ℚ)
    (snapshotted : List String) (currentUrl : String) : StepsOut :=
  if action.type = "navigate" then
    let url := if "\x7b\x7b".data.isPrefixOf action.url.data then baseUrl else action.url
    { steps := [
        { seq := seq, mcp_tool := "browser_navigate", args := .navArgs url,
          note := "Navigate to " ++ url },
        { seq := seq + 1, mcp_tool := "browser_snapshot", args := .snapArgs,
          note := "Capture accessibility snapshot to resolve element refs",
          snapshot_marker := true }],
      nextSeq := seq + 2, snapshotted := setAdd snapshotted url, currentUrl := url }
  else if action.type = "fill" then
    if currentUrl ∈ snapshotted then
      { steps := [fillStep action seq], nextSeq := seq + 1,
        snapshotted := snapshotted, currentUrl := currentUrl }
    else
      { steps := [autoSnapStep seq "Snapshot before fill (auto-inserted)",
                  fillStep action (seq + 1)],
        nextSeq := seq + 2, snapshotted := setAdd snapshotted currentUrl,
        currentUrl := currentUrl }
  else if action.type = "click" then
    if currentUrl ∈ snapshotted then
      { steps := [clickStep action seq], nextSeq := seq + 1,
        snapshotted := setDel snapshotted currentUrl, currentUrl := currentUrl }
    else
      { steps := [autoSnapStep seq "Snapshot before click (auto-inserted)",
                  clickStep action (seq + 1)],
        nextSeq := seq + 2,
        snapshotted := setDel (setAdd snapshotted currentUrl) currentUrl,
        currentUrl := currentUrl }
  else if action.type = "clear" then
    if currentUrl ∈ snapshotted then
      { steps := [clearStep action seq], nextSeq := seq + 1,
        snapshotted := snapshotted, currentUrl := currentUrl }
    else
      { steps := [autoSnapStep seq "Snapshot before clear (auto-inserted)",
                  clearStep action (seq + 1)],
        nextSeq := seq + 2, snapshotted := setAdd snapshotted currentUrl,
        currentUrl := currentUrl }
  else if action.type = "wait" then
    { steps := [
        { seq := seq, mcp_tool := "browser_wait_for", args := .timeArgs 2000,
          note := "Wait for \"" ++ action.selector ++ "\" to appear",
          selector_hint := some action.selector,
          original_action := some action }],
      nextSeq := seq + 1, snapshotted := setDel snapshotted currentUrl,
      currentUrl := currentUrl }
  else if action.type = "assert_text" then
    { steps := [
        { seq := seq, mcp_tool := "browser_verify_text_visible",
          args := .textArgs action.expected,
          note := "Assert text visible: \"" ++ action.expected ++ "\"",
          original_action := some action,
          locator_status := some "pending" }],
      nextSeq := seq + 1, snapshotted := snapshotted, currentUrl := currentUrl }
  else if action.type = "get_text" then
    if currentUrl ∈ snapshotted then
      { steps := [getTextStep action seq], nextSeq := seq + 1,
        snapshotted := snapshotted, currentUrl := currentUrl }
    else
      { steps := [autoSnapStep seq "Snapshot to read text content (auto-inserted)",
                  getTextStep action (seq + 1)],
        nextSeq := seq + 2, snapshotted := setAdd snapshotted currentUrl,
        currentUrl := currentUrl }
  else if action.type = "assert_true" ∨ action.type = "assert_false" then
    { steps := [
        { seq := seq, mcp_tool := "browser_evaluate",
          args := .evalArgs ("() => !!(" ++ action.expression ++ ")"),
          note := action.type ++ ": " ++ action.expression,
          original_action := some action }],
      nextSeq := seq + 1, snapshotted := snapshotted, currentUrl := currentUrl }
  else if action.type = "count_elements" then
    { steps := [
        { seq := seq, mcp_tool := "browser_evaluate",
          args := .evalArgs ("() => document.querySelectorAll('" ++ action.selector
                             ++ "').length"),
          note := "Count elements matching \"" ++ action.selector ++ "\"",
          selector_hint := some action.selector,
          original_action := some action }],
      nextSeq := seq + 1, snapshotted := snapshotted, currentUrl := currentUrl }
  else
    { steps := [
        { seq := seq, mcp_tool := "/* unknown */", args := .noArgs,
          note := "Unhandled action type: " ++ action.type,
          original_action := some action,
          skipped := true }],
      nextSeq := seq + 1, snapshotted := snapshotted, currentUrl := currentUrl }

/-- The per-method loop of the `test_methods` mapping: fold
`actionToSteps` over the action list, accumulating steps. -/
def compileFold (baseUrl : String) : List Action → ℚ → List String → String → StepsOut
  | [], seq, snapshotted, currentUrl =>
    { steps := [], nextSeq := seq, snapshotted := snapshotted, currentUrl := currentUrl }
  | a :: rest, seq, snapshotted, currentUrl =>
    let r := actionToSteps baseUrl a seq snapshotted currentUrl
    let r' := compileFold baseUrl rest r.nextSeq r.snapshotted r.currentUrl
    { steps := r.steps ++ r'.steps, nextSeq := r'.nextSeq,
      snapshotted := r'.snapshotted, currentUrl := r'.currentUrl }

/-- The renumbering post-pass `playwrightSteps.forEach((s, i) => (s.seq = i + 1))`. -/
def renumberFrom (i : Nat) : List Step → List Step
  | [] => []
  | s :: rest => { s with seq := (i : ℚ) + 1 } :: renumberFrom (i + 1) rest

/-- The two auto-inserted bootstrap steps (seq `0.1` / `0.2` before the
renumbering pass). -/
def autoNavStep (baseUrl : String) : Step :=
  { seq := (1 : ℚ) / 10, mcp_tool := "browser_navigate", args := .navArgs baseUrl,
    note := "Auto-inserted: Navigate to base URL (no explicit navigate in Selenium code)" }

def autoInitSnapStep : Step :=
  { seq := (2 : ℚ) / 10, mcp_tool := "browser_snapshot", args := .snapArgs,
    note := "Auto-inserted: Initial snapshot", snapshot_marker := true }

structure CompiledMethod where
  name : String
  total_steps : Nat
  playwright_steps : List Step
  result_status : String
  deriving DecidableEq, Repr

/-- One entry of the `test_methods` mapping (playwright-bridge.mjs
lines 325–375): run the fold from `(1, ∅, "")`, then, if the method has
actions but no navigate action, prepend the bootstrap navigate+snapshot
pair and renumber densely from 1. -/
def compileMethod (baseUrl : String) (m : TestMethod) : CompiledMethod :=
  let folded := compileFold baseUrl m.actions 1 [] ""
  let hasNavigate := m.actions.any (·.type = "navigate")
  let steps :=
    if ¬hasNavigate ∧ m.actions.length > 0 then
      renumberFrom 0 (autoNavStep baseUrl :: autoInitSnapStep :: folded.steps)
    else folded.steps
  { name := m.name, total_steps := steps.length, playwright_steps := steps,
    result_status := "pending" }

/-- The whole `test_methods` array of the generated plan. -/
def compilePlanMethods (baseUrl : String) (testMethods : List TestMethod) :
    List CompiledMethod :=
  testMethods.map (compileMethod baseUrl)

/-! ## `extract_actions` tool handler (index.mjs lines 134–149)

`if (test_name)` is a JS truthiness test: the filter runs only when the
argument is present and non-empty. -/

def extractActionsTool (code : String) (test_name : Option String) : ExtractResult :=
  let result := extractActions code
  match test_name with
  | none => result
  | some tn =>
    if tn = "" then result
    else { testMethods := result.testMethods.filter (·.name = tn) }

/-! ## Sequence-numbering lemmas -/

/-- The list `[q, q+1, ..., q+n-1]` as rationals. -/
def seqsFrom (q : ℚ) (n : Nat) : List ℚ := (List.range n).map (fun i : ℕ => q + (i : ℚ))

lemma seqsFrom_append (q : ℚ) (n m : Nat) :
    seqsFrom q (n + m) = seqsFrom q n ++ seqsFrom (q + n) m := by
  unfold seqsFrom
  rw [List.range_add, List.map_append, List.map_map]
  congr 1
  exact List.map_congr_left fun i _ => by push_cast [Function.comp]; ring

lemma actionToSteps_seq (baseUrl : String) (a : Action) (q : ℚ)
    (snap : List String) (cur : String) :
    (actionToSteps baseUrl a q snap cur).steps.map (·.seq) =
      seqsFrom q (actionToSteps baseUrl a q snap cur).steps.length ∧
    (actionToSteps baseUrl a q snap cur).nextSeq =
      q + ((actionToSteps baseUrl a q snap cur).steps.length : ℚ) := by
  unfold actionToSteps
  split_ifs <;>
    simp [seqsFrom, autoSnapStep, fillStep, clickStep, clearStep, getTextStep,
      List.range_succ]

lemma compileFold_seq (baseUrl : String) (acts : List Action) (q : ℚ)
    (snap : List String) (cur : String) :
    (compileFold baseUrl acts q snap cur).steps.map (·.seq) =
      seqsFrom q (compileFold baseUrl acts q snap cur).steps.length ∧
    (compileFold baseUrl acts q snap cur).nextSeq =
      q + ((compileFold baseUrl acts q snap cur).steps.length : ℚ) := by
  induction acts generalizing q snap cur with
  | nil => simp [compileFold, seqsFrom]
  | cons a rest ih =>
    simp only [compileFold, List.map_append, List.length_append]
    obtain ⟨h1, h2⟩ := actionToSteps_seq baseUrl a q snap cur
    obtain ⟨h3, h4⟩ := ih (actionToSteps baseUrl a q snap cur).nextSeq
      (actionToSteps baseUrl a q snap cur).snapshotted
      (actionToSteps baseUrl a q snap cur).currentUrl
    rw [h2] at h3 h4
    refine ⟨?_, ?_⟩
    · rw [h1, h2, h3, seqsFrom_append]
    · rw [h2, h4]; push_cast; ring

lemma renumberFrom_seq (l : List Step) (i : Nat) :
    (renumberFrom i l).map (·.seq) = (List.range l.length).map (fun k => ((i + k : ℕ) : ℚ) + 1) := by
  induction l generalizing i with
  | nil => rfl
  | cons s rest ih =>
    simp only [renumberFrom, List.map_cons, List.length_cons]
    rw [List.range_succ_eq_map, List.map_cons, List.map_map, ih (i + 1)]
    refine congrArg₂ List.cons (by push_cast; ring) (List.map_congr_left fun k _ => ?_)
    simp only [Function.comp]
    push_cast
    ring

lemma renumberFrom_tools (l : List Step) (i : Nat) :
    (renumberFrom i l).map (·.mcp_tool) = l.map (·.mcp_tool) := by
  induction l generalizing i with
  | nil => rfl
  | cons s rest ih => simp [renumberFrom, ih]

/-- Renumbering changes only `seq`; every other field is preserved
elementwise. -/
lemma renumberFrom_mem (l : List Step) (i : Nat) :
    ∀ s' ∈ renumberFrom i l, ∃ s ∈ l, s'.args = s.args ∧
      s'.selector_hint = s.selector_hint ∧ s'.original_action = s.original_action ∧
      s'.locator_status = s.locator_status ∧ s'.mcp_tool = s.mcp_tool := by
  induction l generalizing i with
  | nil => intro s' h; cases h
  | cons s rest ih =>
    intro s' h
    simp only [renumberFrom] at h
    rcases List.mem_cons.mp h with h | h
    · subst h; exact ⟨s, List.mem_cons_self s rest, by simp⟩
    · obtain ⟨t, ht, hprops⟩ := ih (i + 1) s' h
      exact ⟨t, List.mem_cons_of_mem _ ht, hprops⟩

lemma renumberFrom_length (l : List Step) (i : Nat) :
    (renumberFrom i l).length = l.length := by
  induction l generalizing i with
  | nil => rfl
  | cons s rest ih => simp [renumberFrom, ih]

/-- In every compiled method the final `seq` values are `1, 2, ..., n`. -/
lemma compileMethod_seq (baseUrl : String) (m : TestMethod) :
    (compileMethod baseUrl m).playwright_steps.map (·.seq) =
      (List.range (compileMethod baseUrl m).playwright_steps.length).map
        (fun i : ℕ => (i : ℚ) + 1) := by
  simp only [compileMethod]
  split_ifs with h
  · simp only [renumberFrom_length, renumberFrom_seq]
    exact List.map_congr_left fun k _ => by push_cast; ring
  · rw [(compileFold_seq baseUrl m.actions 1 [] "").1]
    exact List.map_congr_left fun k _ => by ring

/-! ## Claim theorems: sequence numbering (C4, C5, C6) -/

/-- C6. For every input `testMethods` list and base URL, each
compiled method's `seq` values are exactly `1, 2, ..., n` — contiguous
from 1, no gaps, no duplicates — including after auto-insertion and
renumbering; and a method with zero actions compiles to an empty step
list without error. -/
theorem c6_seq_dense_and_empty_method_ok :
    (∀ (baseUrl : String) (ms : List TestMethod),
       ∀ cm ∈ compilePlanMethods baseUrl ms,
       cm.playwright_steps.map (·.seq) =
         (List.range cm.playwright_steps.length).map (fun i : ℕ => (i : ℚ) + 1)) ∧
    (∀ (baseUrl : String) (m : TestMethod), m.actions = [] →
       (compileMethod baseUrl m).playwright_steps = []) := by
  constructor
  · intro baseUrl ms cm hcm
    obtain ⟨m, _, rfl⟩ := List.mem_map.mp hcm
    exact compileMethod_seq baseUrl m
  · intro baseUrl m h
    simp [compileMethod, compileFold, h]

/-- Witness for C6 at a concrete plan. -/
theorem c6_seq_dense_and_empty_method_ok_witness :
    ((compileMethod "b" ⟨"t", []⟩).playwright_steps.map (·.seq) =
      (List.range (compileMethod "b" ⟨"t", []⟩).playwright_steps.length).map
        (fun i : ℕ => (i : ℚ) + 1)) ∧
    (compileMethod "b" ⟨"t", []⟩).playwright_steps = [] :=
  ⟨c6_seq_dense_and_empty_method_ok.1 "b" [⟨"t", []⟩] _
      (by simp [compilePlanMethods]),
   c6_seq_dense_and_empty_method_ok.2 "b" ⟨"t", []⟩ rfl⟩

/-- C4. For a method `[navigate(url-literal), fill(selX, v), click(selY)]`
the compiled plan is exactly navigate, snapshot, fill (no extra
snapshot), click (no extra snapshot) with `seq = [1,2,3,4]`, and after
the click the URL is no longer snapshot-fresh in the final state. -/
theorem c4_nav_fill_click_plan (baseUrl url selX selY v nm : String)
    (h : ¬ "\x7b\x7b".data.isPrefixOf url.data) :
    ((compileMethod baseUrl
        ⟨nm, [⟨"navigate", url, "", "", "", ""⟩, ⟨"fill", "", selX, v, "", ""⟩,
              ⟨"click", "", selY, "", "", ""⟩]⟩).playwright_steps.map (·.mcp_tool) =
      ["browser_navigate", "browser_snapshot", "browser_fill_form", "browser_click"]) ∧
    ((compileMethod baseUrl
        ⟨nm, [⟨"navigate", url, "", "", "", ""⟩, ⟨"fill", "", selX, v, "", ""⟩,
              ⟨"click", "", selY, "", "", ""⟩]⟩).playwright_steps.map (·.seq) =
      [1, 2, 3, 4]) ∧
    url ∉ (compileFold baseUrl
        [⟨"navigate", url, "", "", "", ""⟩, ⟨"fill", "", selX, v, "", ""⟩,
         ⟨"click", "", selY, "", "", ""⟩] 1 [] "").snapshotted := by
  refine ⟨?_, ?_, ?_⟩ <;>
    simp [compileMethod, compileFold, actionToSteps, setAdd, setDel, h,
      fillStep, clickStep, autoSnapStep] <;> norm_num

/-- Witness for C4 at a concrete input. -/
theorem c4_nav_fill_click_plan_witness :
    ((compileMethod "http://base"
        ⟨"t", [⟨"navigate", "http://u", "", "", "", ""⟩, ⟨"fill", "", "#x", "v", "", ""⟩,
              ⟨"click", "", "#y", "", "", ""⟩]⟩).playwright_steps.map (·.mcp_tool) =
      ["browser_navigate", "browser_snapshot", "browser_fill_form", "browser_click"]) ∧
    ((compileMethod "http://base"
        ⟨"t", [⟨"navigate", "http://u", "", "", "", ""⟩, ⟨"fill", "", "#x", "v", "", ""⟩,
              ⟨"click", "", "#y", "", "", ""⟩]⟩).playwright_steps.map (·.seq) =
      [1, 2, 3, 4]) ∧
    "http://u" ∉ (compileFold "http://base"
        [⟨"navigate", "http://u", "", "", "", ""⟩, ⟨"fill", "", "#x", "v", "", ""⟩,
         ⟨"click", "", "#y", "", "", ""⟩] 1 [] "").snapshotted :=
  c4_nav_fill_click_plan "http://base" "http://u" "#x" "#y" "v" "t" (by decide)

/-- C5. A non-empty method with no navigate action gets a synthetic
navigate-to-base-URL step and a synthetic snapshot step prepended ahead
of all other steps, then dense renumbering from 1; a single-click
method yields four steps with `seq = [1,2,3,4]`. -/
theorem c5_bootstrap_nav_inserted (baseUrl : String) (m : TestMethod)
    (h1 : m.actions ≠ []) (h2 : ∀ a ∈ m.actions, a.type ≠ "navigate") :
    ((compileMethod baseUrl m).playwright_steps.map (·.mcp_tool) =
      "browser_navigate" :: "browser_snapshot" ::
        ((compileFold baseUrl m.actions 1 [] "").steps.map (·.mcp_tool))) ∧
    ((compileMethod baseUrl m).playwright_steps.head?.map (·.args) =
      some (.navArgs baseUrl)) ∧
    ((compileMethod baseUrl m).playwright_steps.map (·.seq) =
      (List.range (compileMethod baseUrl m).playwright_steps.length).map
        (fun i : ℕ => (i : ℚ) + 1)) ∧
    (∀ nm sel : String,
      (compileMethod baseUrl ⟨nm, [⟨"click", "", sel, "", "", ""⟩]⟩).playwright_steps.map
          (·.seq) = [1, 2, 3, 4]) := by
  have hNav : (m.actions.any (·.type = "navigate")) = false := by
    simp only [List.any_eq_false, decide_eq_true_eq]
    exact h2
  have hCond : (¬(m.actions.any (·.type = "navigate")) = true ∧ m.actions.length > 0) := by
    refine ⟨by simp [hNav], List.length_pos.mpr h1⟩
  refine ⟨?_, ?_, compileMethod_seq baseUrl m, ?_⟩
  · simp only [compileMethod, if_pos hCond, renumberFrom_tools]
    simp [autoNavStep, autoInitSnapStep]
  · simp only [compileMethod, if_pos hCond]
    simp [renumberFrom, autoNavStep]
  · intro nm sel
    simp [compileMethod, compileFold, actionToSteps, setAdd, setDel,
      renumberFrom, clickStep, autoSnapStep]
    norm_num

/-- Witness for C5 at a concrete input. -/
theorem c5_bootstrap_nav_inserted_witness :
    ((compileMethod "b" ⟨"t", [⟨"click", "", "#y", "", "", ""⟩]⟩).playwright_steps.map
        (·.mcp_tool) =
      "browser_navigate" :: "browser_snapshot" ::
        ((compileFold "b" [⟨"click", "", "#y", "", "", ""⟩] 1 [] "").steps.map
          (·.mcp_tool))) ∧
    ((compileMethod "b" ⟨"t", [⟨"click", "", "#y", "", "", ""⟩]⟩).playwright_steps.head?.map
        (·.args) = some (.navArgs "b")) ∧
    ((compileMethod "b" ⟨"t", [⟨"click", "", "#y", "", "", ""⟩]⟩).playwright_steps.map
        (·.seq) =
      (List.range
        (compileMethod "b" ⟨"t", [⟨"click", "", "#y", "", "", ""⟩]⟩).playwright_steps.length).map
        (fun i : ℕ => (i : ℚ) + 1)) ∧
    ((compileMethod "b" ⟨"t2", [⟨"click", "", "#z", "", "", ""⟩]⟩).playwright_steps.map
          (·.seq) = [1, 2, 3, 4]) := by
  obtain ⟨h1, h2, h3, h4⟩ :=
    c5_bootstrap_nav_inserted "b" ⟨"t", [⟨"click", "", "#y", "", "", ""⟩]⟩
      (by decide) (by decide)
  exact ⟨h1, h2, h3, h4 "t2" "#z"⟩


/-! ## Claim theorems: ref-placeholder invariants (C9, C3) -/

/-- The `element` slot of an `args_template`, if any. -/
def templateElement : StepArgs → Option String
  | .fillTemplate fs => fs.head?.map (·.element)
  | .clickTemplate e _ => some e
  | _ => none

/-- The `ref` slot of an `args_template`, if any. -/
def templateRef : StepArgs → Option String
  | .fillTemplate fs => fs.head?.map (·.ref)
  | .clickTemplate _ r => some r
  | _ => none

/-- The step's `args_template` contains the ref-resolution placeholder. -/
def hasRefPh : StepArgs → Prop
  | .fillTemplate fs => ∃ f ∈ fs, f.ref = refPlaceholder
  | .clickTemplate _ r => r = refPlaceholder
  | _ => False

/-- The property claimed invariant: a placeholder-carrying step also
carries the originating action's selector as `selector_hint` and a
pending locator status. -/
def stepRefOk (s : Step) : Prop :=
  hasRefPh s.args →
    (∃ a, s.original_action = some a ∧ s.selector_hint = some a.selector) ∧
    s.locator_status = some "pending"

lemma stepRefOk_fillStep (a : Action) (q : ℚ) : stepRefOk (fillStep a q) :=
  fun _ => ⟨⟨a, rfl, rfl⟩, rfl⟩

lemma stepRefOk_clickStep (a : Action) (q : ℚ) : stepRefOk (clickStep a q) :=
  fun _ => ⟨⟨a, rfl, rfl⟩, rfl⟩

lemma stepRefOk_clearStep (a : Action) (q : ℚ) : stepRefOk (clearStep a q) :=
  fun _ => ⟨⟨a, rfl, rfl⟩, rfl⟩

lemma actionToSteps_refOk (baseUrl : String) (a : Action) (q : ℚ)
    (snap : List String) (cur : String) :
    ∀ s ∈ (actionToSteps baseUrl a q snap cur).steps, stepRefOk s := by
  intro s hs
  unfold actionToSteps at hs
  repeat' split at hs
  all_goals
    simp only [List.mem_cons, List.not_mem_nil, or_false] at hs
  all_goals
    rcases hs with rfl | rfl
    <;> first
      | apply stepRefOk_fillStep
      | apply stepRefOk_clickStep
      | apply stepRefOk_clearStep
      | exact fun hph => nomatch hph

lemma compileFold_refOk (baseUrl : String) (acts : List Action) (q : ℚ)
    (snap : List String) (cur : String) :
    ∀ s ∈ (compileFold baseUrl acts q snap cur).steps, stepRefOk s := by
  induction acts generalizing q snap cur with
  | nil => intro s hs; cases hs
  | cons a rest ih =>
    intro s hs
    simp only [compileFold, List.mem_append] at hs
    rcases hs with hs | hs
    · exact actionToSteps_refOk baseUrl a q snap cur s hs
    · exact ih _ _ _ s hs

lemma compileMethod_refOk (baseUrl : String) (m : TestMethod) :
    ∀ s ∈ (compileMethod baseUrl m).playwright_steps, stepRefOk s := by
  simp only [compileMethod]
  split_ifs with h
  · intro s hs
    obtain ⟨t, ht, ha, hh, ho, hl, _⟩ := renumberFrom_mem _ _ s hs
    have htOk : stepRefOk t := by
      rcases List.mem_cons.mp ht with rfl | ht'
      · exact fun hph => nomatch hph
      · rcases List.mem_cons.mp ht' with rfl | ht''
        · exact fun hph => nomatch hph
        · exact compileFold_refOk baseUrl m.actions 1 [] "" t ht''
    intro hph
    rw [ha] at hph
    obtain ⟨⟨a, hoa, hsh⟩, hls⟩ := htOk hph
    exact ⟨⟨a, ho ▸ hoa, hh ▸ hsh⟩, hl ▸ hls⟩
  · exact compileFold_refOk baseUrl m.actions 1 [] ""

/-- C9. In every compiled plan, every step whose `args_template`
contains the ref-resolution placeholder (the fill/clear/click steps)
also carries `selector_hint` equal to the action's canonical selector
and `locator_status = "pending"`. -/
theorem c9_placeholder_steps_carry_hint_and_pending
    (baseUrl : String) (ms : List TestMethod) :
    ∀ cm ∈ compilePlanMethods baseUrl ms, ∀ s ∈ cm.playwright_steps,
      hasRefPh s.args →
        (∃ a, s.original_action = some a ∧ s.selector_hint = some a.selector) ∧
        s.locator_status = some "pending" := by
  intro cm hcm s hs
  obtain ⟨m, _, rfl⟩ := List.mem_map.mp hcm
  exact compileMethod_refOk baseUrl m s hs

/-- Witness for C9: the fill step of a concrete one-fill plan. -/
theorem c9_placeholder_steps_carry_hint_and_pending_witness :
    (∃ a, (fillStep ⟨"fill", "", "#x", "v", "", ""⟩ 4).original_action = some a ∧
      (fillStep ⟨"fill", "", "#x", "v", "", ""⟩ 4).selector_hint = some a.selector) ∧
    (fillStep ⟨"fill", "", "#x", "v", "", ""⟩ 4).locator_status = some "pending" :=
  c9_placeholder_steps_carry_hint_and_pending "b" [⟨"t", [⟨"fill", "", "#x", "v", "", ""⟩]⟩]
    (compileMethod "b" ⟨"t", [⟨"fill", "", "#x", "v", "", ""⟩]⟩)
    (by simp [compilePlanMethods])
    (fillStep ⟨"fill", "", "#x", "v", "", ""⟩ 4)
    (by
      simp [compileMethod, compileFold, actionToSteps, setAdd, renumberFrom,
        fillStep, autoSnapStep]
      norm_num)
    (by simp [hasRefPh, fillStep])


/-! ## Claim theorems: primary-step shape for element actions (C3) -/

/-- C3 counterexample. The claim groups `get_text` with click/fill/
clear, asserting its primary step carries a ref-resolution placeholder
and `locator_status: "pending"`; but the step emitted for a `get_text`
action (even with a fresh snapshot, so it is the only step) carries
neither. -/
theorem c3_counterexample_get_text_step :
    ((actionToSteps "b" ⟨"get_text", "", "#x", "", "", ""⟩ 1 ["u"] "u").steps.map
        (·.locator_status) = [none]) ∧
    ((actionToSteps "b" ⟨"get_text", "", "#x", "", "", ""⟩ 1 ["u"] "u").steps.map
        (fun s => templateRef s.args) = [none]) := by
  constructor <;> rfl

/-- C3 (amended). For click, fill and clear the emitted primary
step carries the selector description, the ref-resolution placeholder,
the original action and `locator_status: "pending"`; for `get_text` the
primary step is a snapshot read carrying the selector hint and the
original action but no placeholder and no pending marker.  For all four
kinds, if the current URL is not snapshot-fresh a marked snapshot step
is inserted immediately before the primary step, and for fill, clear
and get_text the URL is snapshot-fresh afterwards (a click invalidates
it again). -/
theorem c3_element_action_steps (baseUrl : String) (a : Action) (q : ℚ)
    (snap : List String) (cur : String)
    (h : a.type = "click" ∨ a.type = "fill" ∨ a.type = "clear" ∨ a.type = "get_text") :
    (cur ∉ snap →
      ∃ s p, (actionToSteps baseUrl a q snap cur).steps = [s, p] ∧
        s.mcp_tool = "browser_snapshot" ∧ s.snapshot_marker = true) ∧
    (cur ∈ snap → (actionToSteps baseUrl a q snap cur).steps.length = 1) ∧
    ((a.type = "click" ∨ a.type = "fill" ∨ a.type = "clear") →
      ∃ pre p, (actionToSteps baseUrl a q snap cur).steps = pre ++ [p] ∧
        templateElement p.args = some (selectorToDescription a.selector) ∧
        templateRef p.args = some refPlaceholder ∧
        p.original_action = some a ∧
        p.selector_hint = some a.selector ∧
        p.locator_status = some "pending") ∧
    (a.type = "get_text" →
      ∃ pre p, (actionToSteps baseUrl a q snap cur).steps = pre ++ [p] ∧
        p.mcp_tool = "browser_snapshot" ∧
        p.selector_hint = some a.selector ∧
        p.original_action = some a ∧
        templateRef p.args = none ∧
        p.locator_status = none) ∧
    ((a.type = "fill" ∨ a.type = "clear" ∨ a.type = "get_text") →
      cur ∈ (actionToSteps baseUrl a q snap cur).snapshotted) := by
  have hmem : cur ∈ setAdd snap cur := by
    by_cases hc : cur ∈ snap <;> simp [setAdd, hc]
  rcases h with h | h | h | h <;> by_cases hc : cur ∈ snap
  · -- click, snapshot fresh
    have hred : actionToSteps baseUrl a q snap cur =
        { steps := [clickStep a q], nextSeq := q + 1,
          snapshotted := setDel snap cur, currentUrl := cur } := by
      simp [actionToSteps, h, hc]
    rw [hred]
    refine ⟨fun hns => absurd hc hns, fun _ => rfl,
      fun _ => ⟨[], clickStep a q, rfl, rfl, rfl, rfl, rfl, rfl⟩,
      fun hg => absurd (h.symm.trans hg) (by decide), fun hf => ?_⟩
    rcases hf with hf | hf | hf <;> exact absurd (h.symm.trans hf) (by decide)
  · -- click, snapshot stale
    have hred : actionToSteps baseUrl a q snap cur =
        { steps := [autoSnapStep q "Snapshot before click (auto-inserted)",
                    clickStep a (q + 1)],
          nextSeq := q + 2, snapshotted := setDel (setAdd snap cur) cur,
          currentUrl := cur } := by
      simp [actionToSteps, h, hc]
    rw [hred]
    refine ⟨fun _ => ⟨autoSnapStep q _, clickStep a (q + 1), rfl, rfl, rfl⟩,
      fun hin => absurd hin hc,
      fun _ => ⟨[autoSnapStep q _], clickStep a (q + 1), rfl, rfl, rfl, rfl, rfl, rfl⟩,
      fun hg => absurd (h.symm.trans hg) (by decide), fun hf => ?_⟩
    rcases hf with hf | hf | hf <;> exact absurd (h.symm.trans hf) (by decide)
  · -- fill, snapshot fresh
    have hred : actionToSteps baseUrl a q snap cur =
        { steps := [fillStep a q], nextSeq := q + 1,
          snapshotted := snap, currentUrl := cur } := by
      simp [actionToSteps, h, hc]
    rw [hred]
    exact ⟨fun hns => absurd hc hns, fun _ => rfl,
      fun _ => ⟨[], fillStep a q, rfl, rfl, rfl, rfl, rfl, rfl⟩,
      fun hg => absurd (h.symm.trans hg) (by decide), fun _ => hc⟩
  · -- fill, snapshot stale
    have hred : actionToSteps baseUrl a q snap cur =
        { steps := [autoSnapStep q "Snapshot before fill (auto-inserted)",
                    fillStep a (q + 1)],
          nextSeq := q + 2, snapshotted := setAdd snap cur, currentUrl := cur } := by
      simp [actionToSteps, h, hc]
    rw [hred]
    exact ⟨fun _ => ⟨autoSnapStep q _, fillStep a (q + 1), rfl, rfl, rfl⟩,
      fun hin => absurd hin hc,
      fun _ => ⟨[autoSnapStep q _], fillStep a (q + 1), rfl, rfl, rfl, rfl, rfl, rfl⟩,
      fun hg => absurd (h.symm.trans hg) (by decide), fun _ => hmem⟩
  · -- clear, snapshot fresh
    have hred : actionToSteps baseUrl a q snap cur =
        { steps := [clearStep a q], nextSeq := q + 1,
          snapshotted := snap, currentUrl := cur } := by
      simp [actionToSteps, h, hc]
    rw [hred]
    exact ⟨fun hns => absurd hc hns, fun _ => rfl,
      fun _ => ⟨[], clearStep a q, rfl, rfl, rfl, rfl, rfl, rfl⟩,
      fun hg => absurd (h.symm.trans hg) (by decide), fun _ => hc⟩
  · -- clear, snapshot stale
    have hred : actionToSteps baseUrl a q snap cur =
        { steps := [autoSnapStep q "Snapshot before clear (auto-inserted)",
                    clearStep a (q + 1)],
          nextSeq := q + 2, snapshotted := setAdd snap cur, currentUrl := cur } := by
      simp [actionToSteps, h, hc]
    rw [hred]
    exact ⟨fun _ => ⟨autoSnapStep q _, clearStep a (q + 1), rfl, rfl, rfl⟩,
      fun hin => absurd hin hc,
      fun _ => ⟨[autoSnapStep q _], clearStep a (q + 1), rfl, rfl, rfl, rfl, rfl, rfl⟩,
      fun hg => absurd (h.symm.trans hg) (by decide), fun _ => hmem⟩
  · -- get_text, snapshot fresh
    have hred : actionToSteps baseUrl a q snap cur =
        { steps := [getTextStep a q], nextSeq := q + 1,
          snapshotted := snap, currentUrl := cur } := by
      simp [actionToSteps, h, hc]
    rw [hred]
    refine ⟨fun hns => absurd hc hns, fun _ => rfl, fun hg => ?_,
      fun _ => ⟨[], getTextStep a q, rfl, rfl, rfl, rfl, rfl, rfl⟩, fun _ => hc⟩
    rcases hg with hg | hg | hg <;> exact absurd (h.symm.trans hg) (by decide)
  · -- get_text, snapshot stale
    have hred : actionToSteps baseUrl a q snap cur =
        { steps := [autoSnapStep q "Snapshot to read text content (auto-inserted)",
                    getTextStep a (q + 1)],
          nextSeq := q + 2, snapshotted := setAdd snap cur, currentUrl := cur } := by
      simp [actionToSteps, h, hc]
    rw [hred]
    refine ⟨fun _ => ⟨autoSnapStep q _, getTextStep a (q + 1), rfl, rfl, rfl⟩,
      fun hin => absurd hin hc, fun hg => ?_,
      fun _ => ⟨[autoSnapStep q _], getTextStep a (q + 1), rfl, rfl, rfl, rfl, rfl, rfl⟩,
      fun _ => hmem⟩
    rcases hg with hg | hg | hg <;> exact absurd (h.symm.trans hg) (by decide)


/-- Witness for C3 at a concrete fill action with stale snapshot state. -/
theorem c3_element_action_steps_witness :
    ("" ∉ ([] : List String) →
      ∃ s p, (actionToSteps "b" ⟨"fill", "", "#x", "v", "", ""⟩ 1 [] "").steps = [s, p] ∧
        s.mcp_tool = "browser_snapshot" ∧ s.snapshot_marker = true) ∧
    ("" ∈ ([] : List String) →
      (actionToSteps "b" ⟨"fill", "", "#x", "v", "", ""⟩ 1 [] "").steps.length = 1) ∧
    ((Action.type ⟨"fill", "", "#x", "v", "", ""⟩ = "click" ∨
      Action.type ⟨"fill", "", "#x", "v", "", ""⟩ = "fill" ∨
      Action.type ⟨"fill", "", "#x", "v", "", ""⟩ = "clear") →
      ∃ pre p, (actionToSteps "b" ⟨"fill", "", "#x", "v", "", ""⟩ 1 [] "").steps = pre ++ [p] ∧
        templateElement p.args = some (selectorToDescription "#x") ∧
        templateRef p.args = some refPlaceholder ∧
        p.original_action = some ⟨"fill", "", "#x", "v", "", ""⟩ ∧
        p.selector_hint = some "#x" ∧
        p.locator_status = some "pending") ∧
    (Action.type ⟨"fill", "", "#x", "v", "", ""⟩ = "get_text" →
      ∃ pre p, (actionToSteps "b" ⟨"fill", "", "#x", "v", "", ""⟩ 1 [] "").steps = pre ++ [p] ∧
        p.mcp_tool = "browser_snapshot" ∧
        p.selector_hint = some "#x" ∧
        p.original_action = some ⟨"fill", "", "#x", "v", "", ""⟩ ∧
        templateRef p.args = none ∧
        p.locator_status = none) ∧
    ((Action.type ⟨"fill", "", "#x", "v", "", ""⟩ = "fill" ∨
      Action.type ⟨"fill", "", "#x", "v", "", ""⟩ = "clear" ∨
      Action.type ⟨"fill", "", "#x", "v", "", ""⟩ = "get_text") →
      "" ∈ (actionToSteps "b" ⟨"fill", "", "#x", "v", "", ""⟩ 1 [] "").snapshotted) :=
  c3_element_action_steps "b" ⟨"fill", "", "#x", "v", "", ""⟩ 1 [] ""
    (Or.inr (Or.inl rfl))


/-! ## Claim theorems: brace scanning (C1, C2) -/

/-- C1. The spec requires the Method Segmenter's depth counting to
skip braces inside string/character literals and comments; the code
does not: on the source `@Test void t() \x7b f("\x7d"); \x7d` the `\x7d`
inside the string literal decrements the depth counter, so the
extracted body is the truncated `\x7b f("\x7d` — which by the
string-aware scan of the repository's own Syntax Checker is an
unbalanced fragment (depth 1), although the whole source is balanced
(depth 0). -/
theorem c1_segmenter_counts_brace_inside_string :
    splitTestMethods "@Test void t() \x7b f(\"\x7d\"); \x7d" =
      [⟨"t", "\x7b f(\"\x7d"⟩] ∧
    syntaxScanDepth "\x7b f(\"\x7d" = 1 ∧
    syntaxScanDepth "@Test void t() \x7b f(\"\x7d\"); \x7d" = 0 := by
  refine ⟨?_, ?_, ?_⟩ <;> rfl

/-- C2. The Syntax Checker's scan and the Method Segmenter's brace
matching diverge: on `@Test void u() \x7b g("\x7d"); \x7d` the checker
treats the in-string `\x7d` as literal content (final depth 0, braces
balanced), while the segmenter treats the same character as structural
and ends the method body there, yielding the truncated body
`\x7b g("\x7d` (depth 1, i.e. unbalanced, under the checker's own
discipline). -/
theorem c2_checker_and_segmenter_diverge :
    syntaxScanDepth "@Test void u() \x7b g(\"\x7d\"); \x7d" = 0 ∧
    splitTestMethods "@Test void u() \x7b g(\"\x7d\"); \x7d" =
      [⟨"u", "\x7b g(\"\x7d"⟩] ∧
    syntaxScanDepth "\x7b g(\"\x7d" = 1 := by
  refine ⟨?_, ?_, ?_⟩ <;> rfl

/-! ## Claim theorems: extract_actions tool filter (C10) -/

/-- C10 counterexample. Supplying the empty string as `test_name` is
supplying a `test_name` argument, but JS truthiness skips the filter:
the result keeps a method named `"t"`, which does not equal the
supplied `test_name`, so the result is not "exactly the methods whose
name equals test_name" (that set is empty). -/
theorem c10_counterexample_empty_test_name :
    (extractActionsTool "class A \x7b @Test void t() \x7b driver.get(\"u\"); \x7d \x7d"
        (some "")).testMethods.map (·.name) = ["t"] ∧
    ("t" : String) ≠ "" :=
  ⟨by rfl, by decide⟩

/-- C10 (amended). For every `extract_actions` invocation supplying a
non-empty `test_name`, the result contains exactly the extracted
methods whose name equals `test_name` (exact string equality), and if
none matches the result is an empty `testMethods` list, not an error. -/
theorem c10_test_name_filter (code : String) (tn : String) (h : tn ≠ "") :
    (∀ m, m ∈ (extractActionsTool code (some tn)).testMethods ↔
      (m ∈ (extractActions code).testMethods ∧ m.name = tn)) ∧
    ((∀ m ∈ (extractActions code).testMethods, m.name ≠ tn) →
      (extractActionsTool code (some tn)).testMethods = []) := by
  have hred : extractActionsTool code (some tn) =
      ⟨(extractActions code).testMethods.filter (·.name = tn)⟩ := by
    simp [extractActionsTool, h]
  rw [hred]
  constructor
  · intro m
    simp [List.mem_filter]
  · intro hnone
    simp only [List.filter_eq_nil_iff, decide_eq_true_eq]
    exact hnone

/-- Witness for C10: filtering a one-method file by a non-matching
non-empty name yields the empty list. -/
theorem c10_test_name_filter_witness :
    (extractActionsTool "class A \x7b @Test void t() \x7b driver.get(\"u\"); \x7d \x7d"
        (some "zzz")).testMethods = [] :=
  (c10_test_name_filter "class A \x7b @Test void t() \x7b driver.get(\"u\"); \x7d \x7d"
      "zzz" (by decide)).2 (by decide)


/-! ## Claim theorems: action grouping (C7) -/

lemma scanAllAux_zero {α : Type} (tryM : List Char → Option (α × List Char))
    (s : List Char) (pos : Nat) : scanAllAux tryM s pos 0 = [] := by
  cases s <;> rfl

lemma scanAllAux_nil {α : Type} (tryM : List Char → Option (α × List Char))
    (pos fuel : Nat) : scanAllAux tryM [] pos fuel = [] := by
  cases fuel <;> rfl

/-- Every match result of a scan satisfies any property that the
matcher guarantees of its results. -/
lemma scanAllAux_prop {α : Type} (tryM : List Char → Option (α × List Char))
    (P : α → Prop) (h : ∀ s a r, tryM s = some (a, r) → P a) :
    ∀ (fuel : Nat) (s : List Char) (pos : Nat),
      ∀ x ∈ scanAllAux tryM s pos fuel, P x.2 := by
  intro fuel
  induction fuel with
  | zero => intro s pos x hx; rw [scanAllAux_zero] at hx; cases hx
  | succ fuel ih =>
    intro s pos x hx
    cases s with
    | nil => rw [scanAllAux_nil] at hx; cases hx
    | cons c rest =>
      rw [scanAllAux] at hx
      rcases heq : tryM (c :: rest) with _ | ⟨a, r⟩ <;> simp only [heq] at hx
      · exact ih rest (pos + 1) x hx
      · split at hx <;> rcases List.mem_cons.mp hx with rfl | hx'
        · exact h _ a r heq
        · exact ih _ _ x hx'
        · exact h _ a r heq
        · exact ih _ _ x hx'

lemma scanAll_prop {α : Type} (tryM : List Char → Option (α × List Char))
    (P : α → Prop) (h : ∀ s a r, tryM s = some (a, r) → P a) (s : List Char) :
    ∀ x ∈ scanAll tryM s, P x.2 :=
  scanAllAux_prop tryM P h (s.length + 1) s 0

/-- Scan results carry positions bounded below by the start position. -/
lemma scanAllAux_lb {α : Type} (tryM : List Char → Option (α × List Char)) :
    ∀ (fuel : Nat) (s : List Char) (pos : Nat),
      ∀ x ∈ scanAllAux tryM s pos fuel, pos ≤ x.1 := by
  intro fuel
  induction fuel with
  | zero => intro s pos x hx; rw [scanAllAux_zero] at hx; cases hx
  | succ fuel ih =>
    intro s pos x hx
    cases s with
    | nil => rw [scanAllAux_nil] at hx; cases hx
    | cons c rest =>
      rw [scanAllAux] at hx
      rcases heq : tryM (c :: rest) with _ | ⟨a, r⟩ <;> simp only [heq] at hx
      · exact le_trans (Nat.le_succ pos) (ih rest (pos + 1) x hx)
      · split at hx <;> rcases List.mem_cons.mp hx with rfl | hx'
        · exact le_refl _
        · exact le_trans (Nat.le_add_right pos _) (ih _ _ x hx')
        · exact le_refl _
        · exact le_trans (Nat.le_succ pos) (ih _ _ x hx')

/-- Scan results are emitted in strictly increasing position order
(first textual appearance). -/
lemma scanAllAux_pairwise {α : Type} (tryM : List Char → Option (α × List Char)) :
    ∀ (fuel : Nat) (s : List Char) (pos : Nat),
      ((scanAllAux tryM s pos fuel).map Prod.fst).Pairwise (· < ·) := by
  intro fuel
  induction fuel with
  | zero => intro s pos; rw [scanAllAux_zero]; exact List.Pairwise.nil
  | succ fuel ih =>
    intro s pos
    cases s with
    | nil => rw [scanAllAux_nil]; exact List.Pairwise.nil
    | cons c rest =>
      rw [scanAllAux]
      rcases heq : tryM (c :: rest) with _ | ⟨a, r⟩ <;> simp only [heq]
      · exact ih rest (pos + 1)
      · split
        · refine List.pairwise_cons.mpr ⟨?_, ih _ _⟩
          intro b hb
          obtain ⟨x, hx, rfl⟩ := List.mem_map.mp hb
          have := scanAllAux_lb tryM fuel r (pos + (rest.length + 1 - r.length)) x hx
          omega
        · refine List.pairwise_cons.mpr ⟨?_, ih _ _⟩
          intro b hb
          obtain ⟨x, hx, rfl⟩ := List.mem_map.mp hb
          have := scanAllAux_lb tryM fuel rest (pos + 1) x hx
          omega

lemma scanAll_pairwise {α : Type} (tryM : List Char → Option (α × List Char))
    (s : List Char) : ((scanAll tryM s).map Prod.fst).Pairwise (· < ·) :=
  scanAllAux_pairwise tryM (s.length + 1) s 0

lemma tryNavigate_type : ∀ s a r, tryNavigate s = some (a, r) → a.type = "navigate" := by
  intro s a r h
  unfold tryNavigate at h
  simp only [] at h
  repeat' split at h
  all_goals cases h
  all_goals rfl

lemma tryFill_type : ∀ s a r, tryFill s = some (a, r) → a.type = "fill" := by
  intro s a r h
  unfold tryFill at h
  simp only [] at h
  repeat' split at h
  all_goals cases h
  all_goals rfl

lemma tryFindCall_type (methodDot : List Char) (ty : String) :
    ∀ s a r, tryFindCall methodDot ty s = some (a, r) → a.type = ty := by
  intro s a r h
  unfold tryFindCall at h
  try simp only [] at h
  repeat' split at h
  all_goals cases h
  all_goals rfl

lemma tryAssertEquals_type :
    ∀ s a r, tryAssertEquals s = some (a, r) → a.type = "assert_text" := by
  intro s a r h
  unfold tryAssertEquals at h
  simp only [] at h
  repeat' split at h
  all_goals cases h
  all_goals rfl

lemma tryAssertCall_type (nameLit : List Char) (ty : String) :
    ∀ s a r, tryAssertCall nameLit ty s = some (a, r) → a.type = ty := by
  intro s a r h
  unfold tryAssertCall at h
  simp only [] at h
  repeat' split at h
  all_goals cases h
  all_goals rfl

lemma tryWait_type : ∀ s a r, tryWait s = some (a, r) → a.type = "wait" := by
  intro s a r h
  unfold tryWait at h
  simp only [] at h
  repeat' split at h
  all_goals cases h
  all_goals rfl

lemma tryCount_type : ∀ s a r, tryCount s = some (a, r) → a.type = "count_elements" := by
  intro s a r h
  unfold tryCount at h
  simp only [] at h
  repeat' split at h
  all_goals cases h
  all_goals rfl

/-- Types of a match group collapse to a replicated constant. -/
lemma group_types {α : Type} (l : List (Nat × α)) (f : α → String) (c : String)
    (h : ∀ x ∈ l, f x.2 = c) :
    (l.map (·.2)).map f = List.replicate l.length c := by
  rw [List.map_map]
  have hlen : l.length = (l.map (f ∘ (·.2))).length := by simp
  rw [hlen]
  apply List.eq_replicate_of_mem
  intro b hb
  obtain ⟨x, hx, rfl⟩ := List.mem_map.mp hb
  exact h x hx


lemma navMatches_types (b : List Char) :
    ((navMatches b).map (·.2)).map (·.type) =
      List.replicate (navMatches b).length "navigate" :=
  group_types _ _ _ (scanAll_prop _ _ tryNavigate_type b)

lemma fillMatches_types (b : List Char) :
    ((fillMatches b).map (·.2)).map (·.type) =
      List.replicate (fillMatches b).length "fill" :=
  group_types _ _ _ (scanAll_prop _ _ tryFill_type b)

lemma clearMatches_types (b : List Char) :
    ((clearMatches b).map (·.2)).map (·.type) =
      List.replicate (clearMatches b).length "clear" :=
  group_types _ _ _ (scanAll_prop _ _ (tryFindCall_type ".clear".data "clear") b)

lemma clickMatches_types (b : List Char) :
    ((clickMatches b).map (·.2)).map (·.type) =
      List.replicate (clickMatches b).length "click" :=
  group_types _ _ _ (scanAll_prop _ _ (tryFindCall_type ".click".data "click") b)

lemma getTextMatches_types (b : List Char) :
    ((getTextMatches b).map (·.2)).map (·.type) =
      List.replicate (getTextMatches b).length "get_text" :=
  group_types _ _ _ (scanAll_prop _ _ (tryFindCall_type ".getText".data "get_text") b)

lemma assertTextMatches_types (b : List Char) :
    ((assertTextMatches b).map (·.2)).map (·.type) =
      List.replicate (assertTextMatches b).length "assert_text" :=
  group_types _ _ _ (scanAll_prop _ _ tryAssertEquals_type b)

lemma assertTrueMatches_types (b : List Char) :
    ((assertTrueMatches b).map (·.2)).map (·.type) =
      List.replicate (assertTrueMatches b).length "assert_true" :=
  group_types _ _ _ (fun x hx =>
    scanAll_prop _ _ (tryAssertCall_type "assertTrue".data "assert_true") b x
      (List.mem_of_mem_filter hx))

lemma assertFalseMatches_types (b : List Char) :
    ((assertFalseMatches b).map (·.2)).map (·.type) =
      List.replicate (assertFalseMatches b).length "assert_false" :=
  group_types _ _ _ (scanAll_prop _ _ (tryAssertCall_type "assertFalse".data "assert_false") b)

lemma waitMatches_types (b : List Char) :
    ((waitMatches b).map (·.2)).map (·.type) =
      List.replicate (waitMatches b).length "wait" :=
  group_types _ _ _ (scanAll_prop _ _ tryWait_type b)

lemma countMatches_types (b : List Char) :
    ((countMatches b).map (·.2)).map (·.type) =
      List.replicate (countMatches b).length "count_elements" :=
  group_types _ _ _ (scanAll_prop _ _ tryCount_type b)

lemma assertTrueMatches_pairwise (b : List Char) :
    ((assertTrueMatches b).map Prod.fst).Pairwise (· < ·) :=
  List.Pairwise.sublist ((List.filter_sublist _).map Prod.fst)
    (scanAll_pairwise tryAssertTrue b)

/-- C7. The Action Recognizer emits actions grouped by construct kind
in the fixed order navigate, fill, clear, click, get_text, assert_text,
assert_true, assert_false, wait, count_elements (each group possibly
empty), with each group internally ordered by first textual appearance
of its match (strictly increasing match positions) — not strict
interleaved source order (a body whose click precedes its fill yields
the fill action first); and a body with zero recognized constructs
yields an empty action list. -/
theorem c7_actions_grouped_by_kind :
    (∀ body : String,
      (extractActionsFromBody body).map (·.type) =
        List.replicate (navMatches body.data).length "navigate" ++
        (List.replicate (fillMatches body.data).length "fill" ++
        (List.replicate (clearMatches body.data).length "clear" ++
        (List.replicate (clickMatches body.data).length "click" ++
        (List.replicate (getTextMatches body.data).length "get_text" ++
        (List.replicate (assertTextMatches body.data).length "assert_text" ++
        (List.replicate (assertTrueMatches body.data).length "assert_true" ++
        (List.replicate (assertFalseMatches body.data).length "assert_false" ++
        (List.replicate (waitMatches body.data).length "wait" ++
        List.replicate (countMatches body.data).length "count_elements")))))))) ∧
      ((navMatches body.data).map Prod.fst).Pairwise (· < ·) ∧
      ((fillMatches body.data).map Prod.fst).Pairwise (· < ·) ∧
      ((clearMatches body.data).map Prod.fst).Pairwise (· < ·) ∧
      ((clickMatches body.data).map Prod.fst).Pairwise (· < ·) ∧
      ((getTextMatches body.data).map Prod.fst).Pairwise (· < ·) ∧
      ((assertTextMatches body.data).map Prod.fst).Pairwise (· < ·) ∧
      ((assertTrueMatches body.data).map Prod.fst).Pairwise (· < ·) ∧
      ((assertFalseMatches body.data).map Prod.fst).Pairwise (· < ·) ∧
      ((waitMatches body.data).map Prod.fst).Pairwise (· < ·) ∧
      ((countMatches body.data).map Prod.fst).Pairwise (· < ·)) ∧
    (extractActionsFromBody
        "\x7b driver.findElement(By.id(\"a\")).click(); driver.findElement(By.id(\"b\")).sendKeys(\"x\"); \x7d" =
      [⟨"fill", "", "#b", "x", "", ""⟩, ⟨"click", "", "#a", "", "", ""⟩]) ∧
    (extractActionsFromBody "\x7b int x = 1; \x7d" = []) := by
  refine ⟨fun body => ⟨?_, ?_, ?_, ?_, ?_, ?_, ?_, ?_, ?_, ?_, ?_⟩, ?_, ?_⟩
  · unfold extractActionsFromBody
    simp only [List.map_append, navMatches_types, fillMatches_types, clearMatches_types,
      clickMatches_types, getTextMatches_types, assertTextMatches_types,
      assertTrueMatches_types, assertFalseMatches_types, waitMatches_types,
      countMatches_types, List.append_assoc]
  · exact scanAll_pairwise _ _
  · exact scanAll_pairwise _ _
  · exact scanAll_pairwise _ _
  · exact scanAll_pairwise _ _
  · exact scanAll_pairwise _ _
  · exact scanAll_pairwise _ _
  · exact assertTrueMatches_pairwise _
  · exact scanAll_pairwise _ _
  · exact scanAll_pairwise _ _
  · exact scanAll_pairwise _ _
  · rfl
  · rfl


/-! ## Claim theorems: locator normalizer round-trip (C8) -/

/-- Boolean substring test: some suffix of `big` starts with `small`. -/
def containsStrB (big small : String) : Bool :=
  (List.range (big.data.length + 1)).any (fun i => small.data.isPrefixOf (big.data.drop i))

lemma containsStrB_of_parts {big small : String} {l r : List Char}
    (h : big.data = l ++ small.data ++ r) : containsStrB big small = true := by
  unfold containsStrB
  rw [List.any_eq_true]
  refine ⟨l.length, List.mem_range.mpr ?_, ?_⟩
  · have hlen : big.data.length = l.length + (small.data.length + r.length) := by
      rw [h, List.append_assoc, List.length_append, List.length_append]
    omega
  · rw [h, List.append_assoc, List.drop_left]
    rw [List.isPrefixOf_iff_prefix]
    exact List.prefix_append _ _

lemma takeWhile_append_of_all {p : Char → Bool} {v w : List Char}
    (h : ∀ c ∈ v, p c = true) :
    (v ++ w).takeWhile p = v ++ w.takeWhile p := by
  induction v with
  | nil => rfl
  | cons c cs ih =>
    simp only [List.cons_append, List.takeWhile_cons, h c (List.mem_cons_self c cs),
      if_true]
    rw [ih (fun d hd => h d (List.mem_cons_of_mem c hd))]

lemma dropWhile_append_of_all {p : Char → Bool} {v w : List Char}
    (h : ∀ c ∈ v, p c = true) :
    (v ++ w).dropWhile p = w.dropWhile p := by
  induction v with
  | nil => rfl
  | cons c cs ih =>
    simp only [List.cons_append, List.dropWhile_cons, h c (List.mem_cons_self c cs),
      if_true]
    exact ih (fun d hd => h d (List.mem_cons_of_mem c hd))

lemma eatLit_append (l r : List Char) : eatLit l (l ++ r) = some r := by
  induction l with
  | nil => rfl
  | cons c cs ih => simp [eatLit, ih]

lemma eatLit_eq {l s r : List Char} (h : eatLit l s = some r) : s = l ++ r := by
  induction l generalizing s with
  | nil => simpa [eatLit] using h
  | cons c cs ih =>
    cases s with
    | nil => cases h
    | cons d ds =>
      rw [eatLit] at h
      split at h
      · rename_i hd
        rw [List.cons_append, ← ih h, hd]
      · cases h

lemma eatChar_eq {c : Char} {t u : List Char} (h : eatChar c t = some u) : t = c :: u := by
  cases t with
  | nil => cases h
  | cons d ds =>
    rw [eatChar] at h
    split at h
    · rename_i hd
      cases h
      rw [hd]
    · cases h

lemma count_suffix_le (p : Char → Bool) (s : List Char) (c : Char) :
    (s.dropWhile p).count c ≤ s.count c :=
  ((List.dropWhile_suffix p).sublist).count_le c

lemma count_eatWs_le (s : List Char) (c : Char) :
    (eatWs s).count c ≤ s.count c :=
  ((List.dropWhile_suffix jsWs).sublist).count_le c

/-- A successful `By` pattern match consumed two quote characters. -/
lemma byPatternAt_quotes {m s : List Char} {cap r : List Char}
    (h : byPatternAt m s = some (cap, r)) : 2 ≤ s.count '"' := by
  unfold byPatternAt at h
  simp only [] at h
  repeat' split at h
  all_goals try cases h
  rename_i o1 s1 heq1 o2 s2 heq2 o3 s3 heq3 hcap o4 s4 heq4 o5 heq5
  have h1 : s = ("By.".data ++ m) ++ s1 := eatLit_eq heq1
  have h2 : eatWs s1 = '(' :: s2 := eatChar_eq heq2
  have h3 : eatWs s2 = '"' :: s3 := eatChar_eq heq3
  have h4 : s3.dropWhile (· ≠ '"') = '"' :: s4 := eatChar_eq heq4
  have c1 : s1.count '"' ≤ s.count '"' := by
    rw [h1, List.count_append]; omega
  have c2 : ('(' :: s2).count '"' ≤ s1.count '"' := by
    rw [← h2]; exact count_eatWs_le s1 '"'
  have c3 : ('"' :: s3).count '"' ≤ s2.count '"' := by
    rw [← h3]; exact count_eatWs_le s2 '"'
  have c4 : ('"' :: s4).count '"' ≤ s3.count '"' := by
    rw [← h4]; exact count_suffix_le _ s3 '"'
  simp only [List.count_cons] at c2 c3 c4
  simp at c2 c3 c4
  omega

/-- With at most one quote in the text no `By` pattern can match. -/
lemma findByMatch_none_of_quotes (m : List Char) :
    ∀ s : List Char, s.count '"' ≤ 1 → findByMatch m s = none := by
  intro s
  induction s with
  | nil => intro _; rfl
  | cons c rest ih =>
    intro h
    rw [findByMatch]
    rcases heq : byPatternAt m (c :: rest) with _ | ⟨cap, r⟩
    · have : rest.count '"' ≤ 1 := by
        rw [List.count_cons] at h; omega
      simp only []
      exact ih this
    · have := byPatternAt_quotes heq
      omega

/-- The concrete `By.K("v")` shape matches pattern `K` with capture `v`. -/
lemma byPatternAt_success (method v : List Char) (hv : v ≠ [])
    (hq : ∀ c ∈ v, c ≠ '"') :
    byPatternAt method (("By.".data ++ method) ++ ('(' :: '"' :: (v ++ ['"', ')']))) =
      some (v, []) := by
  have hqb : ∀ c ∈ v, (decide (c ≠ '"')) = true := fun c hc => by simp [hq c hc]
  have e1 : eatChar '(' (eatWs ('(' :: '"' :: (v ++ ['"', ')']))) =
      some ('"' :: (v ++ ['"', ')'])) := rfl
  have e2 : eatChar '"' (eatWs ('"' :: (v ++ ['"', ')']))) = some (v ++ ['"', ')']) := rfl
  have e3 : (v ++ ['"', ')']).takeWhile (fun x => decide (x ≠ '"')) = v := by
    rw [takeWhile_append_of_all hqb]; simp
  have e4 : (v ++ ['"', ')']).dropWhile (fun x => decide (x ≠ '"')) = ['"', ')'] := by
    rw [dropWhile_append_of_all hqb]; rfl
  have e5 : v.isEmpty = false := by
    cases v with
    | nil => exact absurd rfl hv
    | cons c cs => rfl
  unfold byPatternAt
  rw [eatLit_append]
  simp only [e1, e2, e3, e4, e5, Bool.false_eq_true, if_false]
  rfl


lemma findByMatch_success (method v : List Char) (hv : v ≠ [])
    (hq : ∀ c ∈ v, c ≠ '"') :
    findByMatch method (("By.".data ++ method) ++ ('(' :: '"' :: (v ++ ['"', ')']))) =
      some v := by
  have h : byPatternAt method
      ('B' :: ('y' :: '.' :: (method ++ ('(' :: '"' :: (v ++ ['"', ')']))))) =
      some (v, []) := byPatternAt_success method v hv hq
  rw [show (("By.".data ++ method) ++ ('(' :: '"' :: (v ++ ['"', ')']))) =
      'B' :: ('y' :: '.' :: (method ++ ('(' :: '"' :: (v ++ ['"', ')'])))) from rfl]
  rw [findByMatch]
  simp only [h]

/-- Stepping over a concrete prefix in which the pattern cannot start
(discharged by `rfl`), the scan fails when the remainder has no second
quote. -/
lemma findByMatch_none_concrete (m pre w : List Char)
    (hstep : findByMatch m (pre ++ (w ++ ['"', ')'])) =
      findByMatch m (w ++ ['"', ')']))
    (hw : w.count '"' = 0) :
    findByMatch m (pre ++ (w ++ ['"', ')'])) = none := by
  rw [hstep]
  apply findByMatch_none_of_quotes
  rw [List.count_append, hw]
  simp

lemma count_quote_zero {v : String} (hq : ∀ c ∈ v.data, c ≠ '"') :
    v.data.count '"' = 0 :=
  List.count_eq_zero.mpr (fun hc => hq '"' hc rfl)

lemma byToSelector_id (v : String) (hv : v.data ≠ []) (hq : ∀ c ∈ v.data, c ≠ '"') :
    byToSelector ("By.id(\"" ++ v ++ "\")") = "#" ++ v := by
  have hdata : ("By.id(\"" ++ v ++ "\")").data =
      ("By.".data ++ "id".data) ++ ('(' :: '"' :: (v.data ++ ['"', ')'])) := by
    rw [String.data_append, String.data_append, List.append_assoc]
    rfl
  have hsucc := findByMatch_success "id".data v.data hv hq
  unfold byToSelector
  rw [hdata, hsucc]

lemma byToSelector_name (v : String) (hv : v.data ≠ []) (hq : ∀ c ∈ v.data, c ≠ '"') :
    byToSelector ("By.name(\"" ++ v ++ "\")") = "[name=\"" ++ String.mk v.data ++ "\"]" := by
  have hdata : ("By.name(\"" ++ v ++ "\")").data =
      "By.name(\"".data ++ (v.data ++ ['"', ')']) := by
    rw [String.data_append, String.data_append, List.append_assoc]
  have hid : findByMatch "id".data ("By.name(\"".data ++ (v.data ++ ['"', ')'])) = none :=
    findByMatch_none_concrete _ _ _ rfl (count_quote_zero hq)
  have hsucc : findByMatch "name".data ("By.name(\"".data ++ (v.data ++ ['"', ')'])) =
      some v.data := findByMatch_success "name".data v.data hv hq
  unfold byToSelector
  rw [hdata, hid, hsucc]

lemma byToSelector_className (v : String) (hv : v.data ≠ []) (hq : ∀ c ∈ v.data, c ≠ '"') :
    byToSelector ("By.className(\"" ++ v ++ "\")") = "." ++ String.mk v.data := by
  have hdata : ("By.className(\"" ++ v ++ "\")").data =
      "By.className(\"".data ++ (v.data ++ ['"', ')']) := by
    rw [String.data_append, String.data_append, List.append_assoc]
  have hz := count_quote_zero hq
  have hid : findByMatch "id".data ("By.className(\"".data ++ (v.data ++ ['"', ')'])) = none :=
    findByMatch_none_concrete _ _ _ rfl hz
  have hname : findByMatch "name".data ("By.className(\"".data ++ (v.data ++ ['"', ')'])) = none :=
    findByMatch_none_concrete _ _ _ rfl hz
  have hcss : findByMatch "cssSelector".data ("By.className(\"".data ++ (v.data ++ ['"', ')'])) = none :=
    findByMatch_none_concrete _ _ _ rfl hz
  have hxpath : findByMatch "xpath".data ("By.className(\"".data ++ (v.data ++ ['"', ')'])) = none :=
    findByMatch_none_concrete _ _ _ rfl hz
  have hsucc : findByMatch "className".data ("By.className(\"".data ++ (v.data ++ ['"', ')'])) =
      some v.data := findByMatch_success "className".data v.data hv hq
  unfold byToSelector
  rw [hdata, hid, hname, hcss, hxpath, hsucc]

lemma byToSelector_tagName (v : String) (hv : v.data ≠ []) (hq : ∀ c ∈ v.data, c ≠ '"') :
    byToSelector ("By.tagName(\"" ++ v ++ "\")") = v := by
  have hdata : ("By.tagName(\"" ++ v ++ "\")").data =
      "By.tagName(\"".data ++ (v.data ++ ['"', ')']) := by
    rw [String.data_append, String.data_append, List.append_assoc]
  have hz := count_quote_zero hq
  have hid : findByMatch "id".data ("By.tagName(\"".data ++ (v.data ++ ['"', ')'])) = none :=
    findByMatch_none_concrete _ _ _ rfl hz
  have hname : findByMatch "name".data ("By.tagName(\"".data ++ (v.data ++ ['"', ')'])) = none :=
    findByMatch_none_concrete _ _ _ rfl hz
  have hcss : findByMatch "cssSelector".data ("By.tagName(\"".data ++ (v.data ++ ['"', ')'])) = none :=
    findByMatch_none_concrete _ _ _ rfl hz
  have hxpath : findByMatch "xpath".data ("By.tagName(\"".data ++ (v.data ++ ['"', ')'])) = none :=
    findByMatch_none_concrete _ _ _ rfl hz
  have hclass : findByMatch "className".data ("By.tagName(\"".data ++ (v.data ++ ['"', ')'])) = none :=
    findByMatch_none_concrete _ _ _ rfl hz
  have hsucc : findByMatch "tagName".data ("By.tagName(\"".data ++ (v.data ++ ['"', ')'])) =
      some v.data := findByMatch_success "tagName".data v.data hv hq
  unfold byToSelector
  rw [hdata, hid, hname, hcss, hxpath, hclass, hsucc]


lemma findNameCapture_none_of_no_quote :
    ∀ s : List Char, (∀ c ∈ s, c ≠ '"') → findNameCapture s = none := by
  intro s
  induction s with
  | nil => intro _; rfl
  | cons c rest ih =>
    intro hq
    rw [findNameCapture]
    rcases heq : eatLit "[name=\"".data (c :: rest) with _ | t <;> simp only [heq]
    · exact ih (fun d hd => hq d (List.mem_cons_of_mem c hd))
    · exfalso
      have hsplit := eatLit_eq heq
      have hquote : '"' ∈ c :: rest := by rw [hsplit]; simp
      exact hq '"' hquote rfl

lemma findNameCapture_concrete (w : List Char) (hw : w ≠ [])
    (hq : ∀ c ∈ w, c ≠ '"') :
    findNameCapture ("[name=\"".data ++ (w ++ ['"', ']'])) = some w := by
  have hqb : ∀ c ∈ w, (decide (c ≠ '"')) = true := fun c hc => by simp [hq c hc]
  rw [show ("[name=\"".data ++ (w ++ ['"', ']'])) =
      '[' :: ("name=\"".data ++ (w ++ ['"', ']'])) from rfl]
  rw [findNameCapture]
  have heat : eatLit "[name=\"".data ('[' :: ("name=\"".data ++ (w ++ ['"', ']']))) =
      some (w ++ ['"', ']']) := eatLit_append "[name=\"".data (w ++ ['"', ']'])
  simp only [heat]
  have e3 : (w ++ ['"', ']']).takeWhile (fun x => decide (x ≠ '"')) = w := by
    rw [takeWhile_append_of_all hqb]; simp
  have e4 : (w ++ ['"', ']']).dropWhile (fun x => decide (x ≠ '"')) = ['"', ']'] := by
    rw [dropWhile_append_of_all hqb]; rfl
  have e5 : w.isEmpty = false := by
    cases w with
    | nil => exact absurd rfl hw
    | cons c cs => rfl
  simp only [e3, e4, e5, Bool.false_eq_true, if_false]
  rfl

lemma desc_contains_id (v : String) :
    containsStrB (selectorToDescription ("#" ++ v)) v = true := by
  have hpre : "#".data.isPrefixOf ("#" ++ v).data = true := by
    rw [String.data_append, List.isPrefixOf_iff_prefix]
    exact List.prefix_append _ _
  have hdrop : ("#" ++ v).data.drop 1 = v.data := by
    rw [String.data_append]; rfl
  unfold selectorToDescription
  simp only [hpre, hdrop, eq_self_iff_true, if_true]
  exact containsStrB_of_parts (by rw [String.data_append, String.data_append])

lemma desc_contains_class (v : String) :
    containsStrB (selectorToDescription ("." ++ v)) v = true := by
  have h1 : "#".data.isPrefixOf ("." ++ v).data = false := by
    rw [String.data_append]; rfl
  have h2 : ".".data.isPrefixOf ("." ++ v).data = true := by
    rw [String.data_append, List.isPrefixOf_iff_prefix]
    exact List.prefix_append _ _
  have hdrop : ("." ++ v).data.drop 1 = v.data := by
    rw [String.data_append]; rfl
  unfold selectorToDescription
  simp only [h1, h2, hdrop, eq_self_iff_true, if_true, Bool.false_eq_true, if_false]
  exact containsStrB_of_parts (by rw [String.data_append, String.data_append])

lemma desc_contains_name (v : String) (hv : v.data ≠ []) (hq : ∀ c ∈ v.data, c ≠ '"') :
    containsStrB (selectorToDescription ("[name=\"" ++ String.mk v.data ++ "\"]")) v = true := by
  have hdata : ("[name=\"" ++ String.mk v.data ++ "\"]").data =
      "[name=\"".data ++ (v.data ++ ['"', ']']) := by
    rw [String.data_append, String.data_append, List.append_assoc]
  have h1 : "#".data.isPrefixOf ("[name=\"" ++ String.mk v.data ++ "\"]").data = false := by
    rw [hdata]; rfl
  have h2 : ".".data.isPrefixOf ("[name=\"" ++ String.mk v.data ++ "\"]").data = false := by
    rw [hdata]; rfl
  have h3 : "[name=".data.isPrefixOf ("[name=\"" ++ String.mk v.data ++ "\"]").data = true := by
    rw [hdata, List.isPrefixOf_iff_prefix]
    exact ⟨'"' :: (v.data ++ ['"', ']']), rfl⟩
  have hcap : findNameCapture ("[name=\"" ++ String.mk v.data ++ "\"]").data = some v.data := by
    rw [hdata]; exact findNameCapture_concrete v.data hv hq
  unfold selectorToDescription
  simp only [h1, h2, h3, hcap, eq_self_iff_true, if_true, Bool.false_eq_true, if_false]
  exact containsStrB_of_parts (by rw [String.data_append, String.data_append])

lemma desc_contains_plain (v : String) (hq : ∀ c ∈ v.data, c ≠ '"')
    (h1 : "#".data.isPrefixOf v.data = false)
    (h2 : ".".data.isPrefixOf v.data = false)
    (h4 : "text=".data.isPrefixOf v.data = false)
    (h5 : "xpath=".data.isPrefixOf v.data = false) :
    containsStrB (selectorToDescription v) v = true := by
  unfold selectorToDescription
  by_cases h3 : "[name=".data.isPrefixOf v.data = true
  · simp only [h1, h2, h3, eq_self_iff_true, if_true, Bool.false_eq_true, if_false,
      findNameCapture_none_of_no_quote v.data hq]
    exact containsStrB_of_parts (by rw [String.data_append, String.data_append])
  · rw [Bool.not_eq_true] at h3
    simp only [h1, h2, h3, h4, h5, Bool.false_eq_true, if_false]
    exact containsStrB_of_parts (l := []) (r := []) (by simp)


/-- C8 counterexample. A tag locator whose raw value is `.x` (a value
the claim's universal quantification allows) does not round-trip:
normalization keeps `.x` unchanged, but the description generator then
reads the leading dot as a class selector and produces
`element with class="x"`, which does not contain `.x`. -/
theorem c8_counterexample_tag_dot :
    selectorToDescription (byToSelector "By.tagName(\".x\")") = "element with class=\"x\"" ∧
    containsStrB "element with class=\"x\"" ".x" = false := by
  constructor
  · rfl
  · rfl

/-- C8 (amended). For every raw value `v` (non-empty, quote-free, as
the source regexes require): id, name and class locators round-trip —
normalizing and then describing yields a description containing `v` —
and tag locators round-trip provided `v` does not itself begin with one
of the selector prefixes `#`, `.`, `text=`, `xpath=` that the
description generator reinterprets. -/
theorem c8_locator_description_roundtrip (v : String)
    (hv : v.data ≠ []) (hq : ∀ c ∈ v.data, c ≠ '"') :
    containsStrB (selectorToDescription (byToSelector ("By.id(\"" ++ v ++ "\")"))) v = true ∧
    containsStrB (selectorToDescription (byToSelector ("By.name(\"" ++ v ++ "\")"))) v = true ∧
    containsStrB (selectorToDescription (byToSelector ("By.className(\"" ++ v ++ "\")"))) v = true ∧
    ("#".data.isPrefixOf v.data = false → ".".data.isPrefixOf v.data = false →
     "text=".data.isPrefixOf v.data = false → "xpath=".data.isPrefixOf v.data = false →
     containsStrB (selectorToDescription (byToSelector ("By.tagName(\"" ++ v ++ "\")"))) v = true) := by
  refine ⟨?_, ?_, ?_, ?_⟩
  · rw [byToSelector_id v hv hq]
    exact desc_contains_id v
  · rw [byToSelector_name v hv hq]
    exact desc_contains_name v hv hq
  · rw [byToSelector_className v hv hq]
    have := desc_contains_class (String.mk v.data)
    simpa using this
  · intro h1 h2 h4 h5
    rw [byToSelector_tagName v hv hq]
    exact desc_contains_plain v hq h1 h2 h4 h5

/-- Witness for C8 at the concrete value `x`. -/
theorem c8_locator_description_roundtrip_witness :
    containsStrB (selectorToDescription (byToSelector "By.id(\"x\")")) "x" = true ∧
    containsStrB (selectorToDescription (byToSelector "By.name(\"x\")")) "x" = true ∧
    containsStrB (selectorToDescription (byToSelector "By.className(\"x\")")) "x" = true ∧
    containsStrB (selectorToDescription (byToSelector "By.tagName(\"x\")")) "x" = true := by
  obtain ⟨p1, p2, p3, p4⟩ :=
    c8_locator_description_roundtrip "x" (by decide) (by decide)
  exact ⟨p1, p2, p3, p4 rfl rfl rfl rfl⟩

end LLMComparison
